import Mathlib

/-!
Verification of the go-ai-agent core against its specification.

This file gives a shallow embedding, in Lean 4, of the two core subsystems of
the repository: the orchestrator-workers task engine
(`internal/agent/orchestrator.go`) and the RAPTOR hierarchical retrieval tree
(`internal/vectorstore`, `internal/embedding`).

Modelling conventions:
* Go maps used only for membership / lookup are modelled as association lists
  or as plain `List String` sets with explicit insert-if-absent.
* Go `float32` values (embeddings, similarity scores, thresholds) are modelled
  as exact rationals `ℚ`; the Newton square root of the source is reproduced
  literally over `ℚ`.
* The outbound chat / embedding / summarization collaborators are modelled as
  deterministic oracles (pure functions returning `Except`).
* Goroutine fan-out inside one dependency level is determinised to sequential
  execution in task order; levels are executed in order, matching the
  barrier semantics of the source.
* Loops whose termination is not structural are given explicit fuel equal to
  the bound that the source's own invariants provide.
-/

namespace GoAgent

/-! ## Orchestrator data model (orchestrator.go) -/

/-- `Subtask` from orchestrator.go: a single unit of work. -/
structure Subtask where
  id : String
  description : String
  workerType : String
  input : String
deriving DecidableEq

/-- Dependency map `map[string][]string`, as an association list. -/
abbrev DepMap := List (String × List String)

/-- `TaskPlan` from orchestrator.go. -/
structure TaskPlan where
  analysis : String
  subtasks : List Subtask
  dependencies : DepMap
deriving DecidableEq

/-- Go map lookup `plan.Dependencies[id]`: the first binding for `id`, or the
nil slice when absent. -/
def depsOf (deps : DepMap) (id : String) : List String :=
  match deps.find? (fun p => p.1 == id) with
  | some p => p.2
  | none => []

/-- Ids of a subtask list. -/
def idsOf (subtasks : List Subtask) : List String :=
  subtasks.map Subtask.id

/-! ## groupByLevel (orchestrator.go lines 323-383) -/

/-- The `allDepsCompleted` check of the inner scan: every dependency id of
the task is already completed. -/
def depsDone (deps : DepMap) (completed : List String) (t : Subtask) : Bool :=
  (depsOf deps t.id).all (fun d => decide (d ∈ completed))

/-- One round's qualified set: not-yet-completed tasks all of whose
dependencies are completed (the inner scan of the `for` loop). -/
def qualifiedTasks (subtasks : List Subtask) (deps : DepMap)
    (completed : List String) : List Subtask :=
  subtasks.filter (fun t =>
    !decide (t.id ∈ completed) && depsDone deps completed t)

/-- The force-flush set: all not-yet-completed tasks. -/
def remainingTasks (subtasks : List Subtask) (completed : List String) :
    List Subtask :=
  subtasks.filter (fun t => !decide (t.id ∈ completed))

/-- `completed[task.ID] = true` for every task of the current level:
map insertion is insert-if-absent on the key list. -/
def markCompleted (completed : List String) (tasks : List Subtask) :
    List String :=
  tasks.foldl (fun c t => if t.id ∈ c then c else c ++ [t.id]) completed

/-- One round's produced level: the qualified set, or — when it is empty
(cycle or dangling reference) — the force-flush of all remaining tasks. -/
def currentLevel (subtasks : List Subtask) (deps : DepMap)
    (completed : List String) : List Subtask :=
  let q := qualifiedTasks subtasks deps completed
  if q.isEmpty then remainingTasks subtasks completed else q

/-- The `for len(completed) < len(plan.Subtasks)` loop of `groupByLevel`.
The loop grows `completed` by at least one fresh id per iteration whenever
subtask ids are unique, so fuel `subtasks.length` reaches the fixpoint. -/
def groupAux (subtasks : List Subtask) (deps : DepMap) :
    Nat → List String → List (List Subtask)
  | 0, _ => []
  | fuel + 1, completed =>
    if completed.length < subtasks.length then
      currentLevel subtasks deps completed ::
        groupAux subtasks deps fuel
          (markCompleted completed (currentLevel subtasks deps completed))
    else []

/-- `OrchestratorAgent.groupByLevel`. -/
def groupByLevel (plan : TaskPlan) : List (List Subtask) :=
  if plan.subtasks.isEmpty then []
  else if plan.dependencies.isEmpty then [plan.subtasks]
  else groupAux plan.subtasks plan.dependencies plan.subtasks.length []

/-- Index of the level containing the subtask with a given id. -/
def idLevel (levels : List (List Subtask)) (x : String) : Option Nat :=
  match levels with
  | [] => none
  | L :: rest =>
    if L.any (fun t => t.id == x) then some 0
    else (idLevel rest x).map (· + 1)

/-! ### Supporting lemmas about the leveling loop -/

theorem idsOf_nil : idsOf [] = [] := rfl

theorem idsOf_cons {t : Subtask} {ts : List Subtask} :
    idsOf (t :: ts) = t.id :: idsOf ts := rfl

theorem markCompleted_cons {c : List String} {t : Subtask} {ts : List Subtask} :
    markCompleted c (t :: ts) =
      markCompleted (if t.id ∈ c then c else c ++ [t.id]) ts := rfl

theorem markCompleted_nil {c : List String} : markCompleted c [] = c := rfl

theorem mem_markCompleted {x : String} {ts : List Subtask} :
    ∀ {c : List String}, x ∈ markCompleted c ts ↔ x ∈ c ∨ x ∈ idsOf ts := by
  induction ts with
  | nil => intro c; simp [markCompleted_nil, idsOf_nil]
  | cons t ts ih =>
    intro c
    rw [markCompleted_cons]
    by_cases h : t.id ∈ c
    · rw [if_pos h, ih, idsOf_cons]
      constructor
      · rintro (hc | hid)
        · exact Or.inl hc
        · exact Or.inr (List.mem_cons_of_mem _ hid)
      · rintro (hc | hid)
        · exact Or.inl hc
        · rcases List.mem_cons.mp hid with rfl | hid
          · exact Or.inl h
          · exact Or.inr hid
    · rw [if_neg h, ih, idsOf_cons]
      simp only [List.mem_append, List.mem_singleton, List.mem_cons]
      tauto

theorem nodup_markCompleted {ts : List Subtask} :
    ∀ {c : List String}, c.Nodup → (markCompleted c ts).Nodup := by
  induction ts with
  | nil => intro c hc; exact hc
  | cons t ts ih =>
    intro c hc
    rw [markCompleted_cons]
    by_cases h : t.id ∈ c
    · rw [if_pos h]; exact ih hc
    · rw [if_neg h]
      refine ih ?_
      simp [List.nodup_append, hc, h]

theorem eq_of_mem_of_nodup_ids {l : List Subtask} {t u : Subtask}
    (h : (idsOf l).Nodup) (ht : t ∈ l) (hu : u ∈ l) (he : t.id = u.id) :
    t = u :=
  List.inj_on_of_nodup_map h ht hu he

theorem exists_min_on {α : Type} (f : α → Nat) :
    ∀ (l : List α), l ≠ [] → ∃ a ∈ l, ∀ b ∈ l, f a ≤ f b := by
  intro l
  induction l with
  | nil => intro h; exact absurd rfl h
  | cons x l ih =>
    intro _
    rcases l with _ | ⟨y, l⟩
    · exact ⟨x, List.mem_singleton_self x, by simp⟩
    · obtain ⟨a, ha, hmin⟩ := ih (by simp)
      by_cases hxa : f x ≤ f a
      · refine ⟨x, List.mem_cons_self x _, ?_⟩
        intro b hb
        rcases List.mem_cons.mp hb with rfl | hb
        · exact le_refl _
        · exact le_trans hxa (hmin b hb)
      · refine ⟨a, List.mem_cons_of_mem _ ha, ?_⟩
        intro b hb
        rcases List.mem_cons.mp hb with rfl | hb
        · exact le_of_lt (Nat.lt_of_not_le hxa)
        · exact hmin b hb

theorem completed_covers {subtasks : List Subtask} {completed : List String}
    (hcN : completed.Nodup)
    (hcS : ∀ x ∈ completed, x ∈ idsOf subtasks)
    (hlen : ¬ completed.length < subtasks.length) :
    ∀ x ∈ idsOf subtasks, x ∈ completed := by
  have hsp : completed.Subperm (idsOf subtasks) :=
    hcN.subperm (fun x hx => hcS x hx)
  have h2 : (idsOf subtasks).length = subtasks.length := List.length_map _ _
  have hperm : completed.Perm (idsOf subtasks) :=
    hsp.perm_of_length_le (by omega)
  intro x hx
  exact hperm.mem_iff.mpr hx

theorem remainingTasks_eq_nil_of_covers {subtasks : List Subtask}
    {completed : List String}
    (h : ∀ x ∈ idsOf subtasks, x ∈ completed) :
    remainingTasks subtasks completed = [] := by
  rw [remainingTasks, List.filter_eq_nil_iff]
  intro t ht
  simp only [Bool.not_eq_true', decide_eq_false_iff_not, not_not]
  exact h t.id (List.mem_map_of_mem Subtask.id ht)

theorem exists_fresh_of_lt {subtasks : List Subtask} {completed : List String}
    (hids : (idsOf subtasks).Nodup)
    (hlen : completed.length < subtasks.length) :
    ∃ t ∈ subtasks, t.id ∉ completed := by
  by_contra hall
  push_neg at hall
  have hsup : ∀ x ∈ idsOf subtasks, x ∈ completed := by
    intro x hx
    obtain ⟨t, ht, rfl⟩ := List.mem_map.mp hx
    exact hall t ht
  have hsp : (idsOf subtasks).Subperm completed :=
    hids.subperm (fun x hx => hsup x hx)
  have := hsp.length_le
  have h2 : (idsOf subtasks).length = subtasks.length := List.length_map _ _
  omega

theorem remainingTasks_ne_nil {subtasks : List Subtask} {completed : List String}
    (hids : (idsOf subtasks).Nodup)
    (hlen : completed.length < subtasks.length) :
    remainingTasks subtasks completed ≠ [] := by
  obtain ⟨t, ht, hfresh⟩ := exists_fresh_of_lt hids hlen
  intro hnil
  rw [remainingTasks, List.filter_eq_nil_iff] at hnil
  exact hnil t ht (by simp [hfresh])

theorem mem_idsOf {x : String} {l : List Subtask} :
    x ∈ idsOf l ↔ ∃ t ∈ l, t.id = x := by
  simp [idsOf, List.mem_map]

theorem qualifiedTasks_eq_filter {subtasks : List Subtask} {deps : DepMap}
    {completed : List String} :
    qualifiedTasks subtasks deps completed =
      (remainingTasks subtasks completed).filter (depsDone deps completed) := by
  rw [qualifiedTasks, remainingTasks, List.filter_filter]
  exact List.filter_congr (fun t _ => Bool.and_comm _ _)

theorem qualifiedTasks_subset {subtasks : List Subtask} {deps : DepMap}
    {completed : List String} :
    qualifiedTasks subtasks deps completed ⊆ subtasks := by
  intro t ht; exact (List.mem_filter.mp ht).1

theorem remainingTasks_subset {subtasks : List Subtask} {completed : List String} :
    remainingTasks subtasks completed ⊆ subtasks := by
  intro t ht; exact (List.mem_filter.mp ht).1

theorem currentLevel_of_qualified {subtasks : List Subtask} {deps : DepMap}
    {completed : List String}
    (h : qualifiedTasks subtasks deps completed ≠ []) :
    currentLevel subtasks deps completed =
      qualifiedTasks subtasks deps completed := by
  rw [currentLevel]
  simp [List.isEmpty_iff, h]

theorem currentLevel_of_flush {subtasks : List Subtask} {deps : DepMap}
    {completed : List String}
    (h : qualifiedTasks subtasks deps completed = []) :
    currentLevel subtasks deps completed =
      remainingTasks subtasks completed := by
  rw [currentLevel]
  simp [List.isEmpty_iff, h]

theorem currentLevel_subset {subtasks : List Subtask} {deps : DepMap}
    {completed : List String} :
    currentLevel subtasks deps completed ⊆ subtasks := by
  by_cases h : qualifiedTasks subtasks deps completed = []
  · rw [currentLevel_of_flush h]; exact remainingTasks_subset
  · rw [currentLevel_of_qualified h]; exact qualifiedTasks_subset

theorem mem_qualifiedTasks {subtasks : List Subtask} {deps : DepMap}
    {completed : List String} {t : Subtask} :
    t ∈ qualifiedTasks subtasks deps completed ↔
      t ∈ subtasks ∧ t.id ∉ completed ∧ depsDone deps completed t := by
  rw [qualifiedTasks]
  simp [List.mem_filter, and_assoc]

theorem remainingTasks_after_qualified {subtasks : List Subtask} {deps : DepMap}
    {completed : List String}
    (hids : (idsOf subtasks).Nodup) :
    remainingTasks subtasks
        (markCompleted completed (qualifiedTasks subtasks deps completed)) =
      (remainingTasks subtasks completed).filter
        (fun t => !depsDone deps completed t) := by
  rw [remainingTasks, remainingTasks, List.filter_filter]
  apply List.filter_congr
  intro t ht
  by_cases h1 : t.id ∈ completed
  · simp [mem_markCompleted, h1]
  · by_cases h2 : depsDone deps completed t
    · have htq : t ∈ qualifiedTasks subtasks deps completed :=
        mem_qualifiedTasks.mpr ⟨ht, h1, h2⟩
      have hmem : t.id ∈ idsOf (qualifiedTasks subtasks deps completed) :=
        List.mem_map_of_mem Subtask.id htq
      simp [mem_markCompleted, h1, h2, hmem]
    · have hnot : t.id ∉ idsOf (qualifiedTasks subtasks deps completed) := by
        intro hmem
        obtain ⟨u, hu, hue⟩ := mem_idsOf.mp hmem
        have husub : u ∈ subtasks := qualifiedTasks_subset hu
        have : u = t := eq_of_mem_of_nodup_ids hids husub ht hue
        subst this
        exact h2 (mem_qualifiedTasks.mp hu).2.2
      simp [mem_markCompleted, h1, h2, hnot]

theorem remainingTasks_after_flush {subtasks : List Subtask}
    {completed : List String} :
    remainingTasks subtasks
        (markCompleted completed (remainingTasks subtasks completed)) = [] := by
  apply remainingTasks_eq_nil_of_covers
  intro x hx
  obtain ⟨t, ht, rfl⟩ := List.mem_map.mp hx
  by_cases h : t.id ∈ completed
  · exact mem_markCompleted.mpr (Or.inl h)
  · refine mem_markCompleted.mpr (Or.inr ?_)
    exact List.mem_map_of_mem _ (List.mem_filter.mpr ⟨ht, by simp [h]⟩)

theorem markCompleted_subset_ids {subtasks : List Subtask}
    {completed : List String} {cur : List Subtask}
    (hcS : ∀ x ∈ completed, x ∈ idsOf subtasks) (hcur : cur ⊆ subtasks) :
    ∀ x ∈ markCompleted completed cur, x ∈ idsOf subtasks := by
  intro x hx
  rcases mem_markCompleted.mp hx with h | h
  · exact hcS x h
  · obtain ⟨t, ht, rfl⟩ := List.mem_map.mp h
    exact List.mem_map_of_mem _ (hcur ht)

/-- The loop of `groupByLevel` covers the not-yet-completed subtasks exactly:
its produced levels concatenate to a permutation of the remaining tasks. -/
theorem groupAux_flatten_perm (subtasks : List Subtask) (deps : DepMap) :
    ∀ (fuel : Nat) (completed : List String),
      (idsOf subtasks).Nodup → completed.Nodup →
      (∀ x ∈ completed, x ∈ idsOf subtasks) →
      (remainingTasks subtasks completed).length ≤ fuel →
      List.Perm (groupAux subtasks deps fuel completed).flatten
        (remainingTasks subtasks completed) := by
  intro fuel
  induction fuel with
  | zero =>
    intro completed _ _ _ hfuel
    rw [List.eq_nil_of_length_eq_zero (Nat.le_zero.mp hfuel)]
    exact List.Perm.refl _
  | succ fuel ih =>
    intro completed hids hcN hcS hfuel
    rw [groupAux]
    by_cases hlt : completed.length < subtasks.length
    · rw [if_pos hlt, List.flatten_cons]
      by_cases hq : qualifiedTasks subtasks deps completed = []
      · -- force flush
        rw [currentLevel_of_flush hq]
        have hrec := ih (markCompleted completed (remainingTasks subtasks completed))
          hids (nodup_markCompleted hcN)
          (markCompleted_subset_ids hcS remainingTasks_subset)
          (by rw [remainingTasks_after_flush]; exact Nat.zero_le _)
        rw [remainingTasks_after_flush] at hrec
        rw [hrec.eq_nil, List.append_nil]
      · -- qualified step
        rw [currentLevel_of_qualified hq]
        have hrem := @remainingTasks_after_qualified subtasks deps completed
          hids
        have hfuelb :
            (remainingTasks subtasks
              (markCompleted completed
                (qualifiedTasks subtasks deps completed))).length ≤ fuel := by
          rw [hrem]
          have hql : 0 < (qualifiedTasks subtasks deps completed).length :=
            List.length_pos.mpr hq
          have hsplit :
              ((remainingTasks subtasks completed).filter
                  (depsDone deps completed)).length +
                ((remainingTasks subtasks completed).filter
                  (fun t => !depsDone deps completed t)).length =
              (remainingTasks subtasks completed).length := by
            have hpl := (List.filter_append_perm (depsDone deps completed)
              (remainingTasks subtasks completed)).length_eq
            rw [List.length_append] at hpl
            exact hpl
          rw [qualifiedTasks_eq_filter] at hql
          omega
        have hrec := ih (markCompleted completed (qualifiedTasks subtasks deps completed))
          hids (nodup_markCompleted hcN)
          (markCompleted_subset_ids hcS qualifiedTasks_subset) hfuelb
        rw [hrem] at hrec
        have hstep := List.Perm.append_left
          (qualifiedTasks subtasks deps completed) hrec
        refine hstep.trans ?_
        have hfin := List.filter_append_perm (depsDone deps completed)
          (remainingTasks subtasks completed)
        rw [qualifiedTasks_eq_filter]
        exact hfin
    · rw [if_neg hlt]
      have hcov := completed_covers hcN hcS hlt
      rw [remainingTasks_eq_nil_of_covers hcov]
      exact List.Perm.refl _

/-- Every level pushed by the loop is nonempty. -/
theorem groupAux_levels_ne_nil (subtasks : List Subtask) (deps : DepMap) :
    ∀ (fuel : Nat) (completed : List String),
      (idsOf subtasks).Nodup → completed.Nodup →
      (∀ x ∈ completed, x ∈ idsOf subtasks) →
      ∀ L ∈ groupAux subtasks deps fuel completed, L ≠ [] := by
  intro fuel
  induction fuel with
  | zero => intro completed _ _ _ L hL; simp [groupAux] at hL
  | succ fuel ih =>
    intro completed hids hcN hcS L hL
    rw [groupAux] at hL
    by_cases hlt : completed.length < subtasks.length
    · rw [if_pos hlt] at hL
      rcases List.mem_cons.mp hL with rfl | hL
      · by_cases hq : qualifiedTasks subtasks deps completed = []
        · rw [currentLevel_of_flush hq]
          exact remainingTasks_ne_nil hids hlt
        · rw [currentLevel_of_qualified hq]; exact hq
      · exact ih (markCompleted completed (currentLevel subtasks deps completed))
          hids (nodup_markCompleted hcN)
          (markCompleted_subset_ids hcS currentLevel_subset) L hL
    · rw [if_neg hlt] at hL
      simp at hL

theorem remaining_length_after_qualified {subtasks : List Subtask}
    {deps : DepMap} {completed : List String} {fuel : Nat}
    (hids : (idsOf subtasks).Nodup)
    (hq : qualifiedTasks subtasks deps completed ≠ [])
    (hfuel : (remainingTasks subtasks completed).length ≤ fuel + 1) :
    (remainingTasks subtasks
      (markCompleted completed
        (qualifiedTasks subtasks deps completed))).length ≤ fuel := by
  rw [remainingTasks_after_qualified hids]
  have hql : 0 < (qualifiedTasks subtasks deps completed).length :=
    List.length_pos.mpr hq
  have hsplit :
      ((remainingTasks subtasks completed).filter
          (depsDone deps completed)).length +
        ((remainingTasks subtasks completed).filter
          (fun t => !depsDone deps completed t)).length =
      (remainingTasks subtasks completed).length := by
    have hpl := (List.filter_append_perm (depsDone deps completed)
      (remainingTasks subtasks completed)).length_eq
    rw [List.length_append] at hpl
    exact hpl
  rw [qualifiedTasks_eq_filter] at hql
  omega

theorem id_mem_idsOf_iff {subtasks cur : List Subtask} {a : Subtask}
    (hids : (idsOf subtasks).Nodup) (hsub : cur ⊆ subtasks)
    (ha : a ∈ subtasks) :
    a.id ∈ idsOf cur ↔ a ∈ cur := by
  constructor
  · intro h
    obtain ⟨u, hu, hue⟩ := mem_idsOf.mp h
    have heq : u = a := eq_of_mem_of_nodup_ids hids (hsub hu) ha hue
    exact heq ▸ hu
  · exact fun h => List.mem_map_of_mem _ h

theorem idLevel_cons_of_mem {L : List Subtask} {rest : List (List Subtask)}
    {x : String} (h : x ∈ idsOf L) :
    idLevel (L :: rest) x = some 0 := by
  rw [idLevel, if_pos]
  rw [List.any_eq_true]
  obtain ⟨t, ht, hte⟩ := mem_idsOf.mp h
  exact ⟨t, ht, by simp [hte]⟩

theorem idLevel_cons_of_not_mem {L : List Subtask} {rest : List (List Subtask)}
    {x : String} (h : x ∉ idsOf L) :
    idLevel (L :: rest) x = (idLevel rest x).map (· + 1) := by
  rw [idLevel, if_neg]
  rw [List.any_eq_true]
  rintro ⟨t, ht, hte⟩
  exact h (mem_idsOf.mpr ⟨t, ht, by simpa using hte⟩)

theorem idLevel_isSome_of_mem :
    ∀ {levels : List (List Subtask)} {x : String},
      (∃ L, L ∈ levels ∧ x ∈ idsOf L) → ∃ i, idLevel levels x = some i := by
  intro levels
  induction levels with
  | nil => rintro x ⟨L, hL, _⟩; simp at hL
  | cons L rest ih =>
    rintro x ⟨M, hM, hxM⟩
    by_cases h : x ∈ idsOf L
    · exact ⟨0, idLevel_cons_of_mem h⟩
    · rcases List.mem_cons.mp hM with rfl | hM
      · exact absurd hxM h
      · obtain ⟨i, hi⟩ := ih ⟨M, hM, hxM⟩
        exact ⟨i + 1, by rw [idLevel_cons_of_not_mem h, hi]; rfl⟩

/-- When the dependency graph is acyclic (witnessed by a rank function) and
every dependency id names a subtask, the loop places every dependency in a
strictly earlier level than its dependent. -/
theorem groupAux_dep_level_lt (subtasks : List Subtask) (deps : DepMap)
    (rank : String → Nat)
    (hids : (idsOf subtasks).Nodup)
    (hclosed : ∀ t ∈ subtasks, ∀ d ∈ depsOf deps t.id, d ∈ idsOf subtasks)
    (hrank : ∀ t ∈ subtasks, ∀ d ∈ depsOf deps t.id, rank d < rank t.id) :
    ∀ (fuel : Nat) (completed : List String),
      completed.Nodup → (∀ x ∈ completed, x ∈ idsOf subtasks) →
      (remainingTasks subtasks completed).length ≤ fuel →
      ∀ a ∈ subtasks, a.id ∉ completed →
      ∀ b ∈ depsOf deps a.id, b ∉ completed →
      ∃ i j, idLevel (groupAux subtasks deps fuel completed) a.id = some i ∧
        idLevel (groupAux subtasks deps fuel completed) b = some j ∧ j < i := by
  intro fuel
  induction fuel with
  | zero =>
    intro completed _ _ hfuel a ha hac b _ _
    exfalso
    have hmem : a ∈ remainingTasks subtasks completed :=
      List.mem_filter.mpr ⟨ha, by simp [hac]⟩
    rw [List.eq_nil_of_length_eq_zero (Nat.le_zero.mp hfuel)] at hmem
    simp at hmem
  | succ fuel ih =>
    intro completed hcN hcS hfuel a ha hac b hb hbc
    have hlt : completed.length < subtasks.length := by
      by_contra hnlt
      exact hac (completed_covers hcN hcS hnlt a.id (List.mem_map_of_mem _ ha))
    have hremne : remainingTasks subtasks completed ≠ [] := by
      intro h
      have hmem : a ∈ remainingTasks subtasks completed :=
        List.mem_filter.mpr ⟨ha, by simp [hac]⟩
      rw [h] at hmem
      simp at hmem
    obtain ⟨t, htmem, htmin⟩ := exists_min_on (fun u => rank u.id) _ hremne
    have htsub : t ∈ subtasks := remainingTasks_subset htmem
    have htnc : t.id ∉ completed := by
      have := (List.mem_filter.mp htmem).2
      simpa using this
    have htq : t ∈ qualifiedTasks subtasks deps completed := by
      refine mem_qualifiedTasks.mpr ⟨htsub, htnc, ?_⟩
      rw [depsDone, List.all_eq_true]
      intro d hd
      simp only [decide_eq_true_eq]
      by_contra hdc
      obtain ⟨u, hu, hue⟩ := mem_idsOf.mp (hclosed t htsub d hd)
      have humem : u ∈ remainingTasks subtasks completed := by
        refine List.mem_filter.mpr ⟨hu, ?_⟩
        rw [hue]
        simp [hdc]
      have h1 := htmin u humem
      have h2 := hrank t htsub d hd
      simp only at h1
      rw [hue] at h1
      omega
    have hq : qualifiedTasks subtasks deps completed ≠ [] :=
      List.ne_nil_of_mem htq
    rw [groupAux, if_pos hlt, currentLevel_of_qualified hq]
    by_cases haq : a ∈ qualifiedTasks subtasks deps completed
    · exfalso
      have hall := (mem_qualifiedTasks.mp haq).2.2
      rw [depsDone, List.all_eq_true] at hall
      have := hall b hb
      simp only [decide_eq_true_eq] at this
      exact hbc this
    · have hanq : a.id ∉ idsOf (qualifiedTasks subtasks deps completed) := by
        rw [id_mem_idsOf_iff hids qualifiedTasks_subset ha]
        exact haq
      have hanc' : a.id ∉ markCompleted completed
          (qualifiedTasks subtasks deps completed) := by
        rw [mem_markCompleted]
        rintro (h | h)
        exacts [hac h, hanq h]
      have hfuel' := remaining_length_after_qualified hids hq hfuel
      rw [idLevel_cons_of_not_mem hanq]
      by_cases hbq : b ∈ idsOf (qualifiedTasks subtasks deps completed)
      · rw [idLevel_cons_of_mem hbq]
        have hcov := groupAux_flatten_perm subtasks deps fuel
          (markCompleted completed (qualifiedTasks subtasks deps completed))
          hids (nodup_markCompleted hcN)
          (markCompleted_subset_ids hcS qualifiedTasks_subset) hfuel'
        have hamem : a ∈ remainingTasks subtasks
            (markCompleted completed (qualifiedTasks subtasks deps completed)) :=
          List.mem_filter.mpr ⟨ha, by simp [hanc']⟩
        have hafl : a ∈ (groupAux subtasks deps fuel
            (markCompleted completed
              (qualifiedTasks subtasks deps completed))).flatten :=
          hcov.mem_iff.mpr hamem
        obtain ⟨L, hL, haL⟩ := List.mem_flatten.mp hafl
        obtain ⟨i, hi⟩ := idLevel_isSome_of_mem ⟨L, hL, List.mem_map_of_mem _ haL⟩
        exact ⟨i + 1, 0, by rw [hi]; rfl, rfl, Nat.succ_pos i⟩
      · have hbc' : b ∉ markCompleted completed
            (qualifiedTasks subtasks deps completed) := by
          rw [mem_markCompleted]
          rintro (h | h)
          exacts [hbc h, hbq h]
        obtain ⟨i, j, hi, hj, hij⟩ := ih
          (markCompleted completed (qualifiedTasks subtasks deps completed))
          (nodup_markCompleted hcN)
          (markCompleted_subset_ids hcS qualifiedTasks_subset)
          hfuel' a ha hanc' b hb hbc'
        rw [idLevel_cons_of_not_mem hbq]
        exact ⟨i + 1, j + 1, by rw [hi]; rfl, by rw [hj]; rfl,
          Nat.succ_lt_succ hij⟩

theorem remainingTasks_empty_completed {subtasks : List Subtask} :
    remainingTasks subtasks [] = subtasks := by
  rw [remainingTasks]
  apply List.filter_eq_self.mpr
  intro t _
  simp

/-- The levels of `groupByLevel` concatenate to a permutation of the plan's
subtasks whenever subtask ids are unique. -/
theorem groupByLevel_flatten_perm (plan : TaskPlan)
    (hids : (idsOf plan.subtasks).Nodup) :
    List.Perm (groupByLevel plan).flatten plan.subtasks := by
  rw [groupByLevel]
  by_cases h1 : plan.subtasks.isEmpty
  · rw [if_pos h1, List.isEmpty_iff.mp h1]
    exact List.Perm.refl _
  · rw [if_neg h1]
    by_cases h2 : plan.dependencies.isEmpty
    · rw [if_pos h2]
      simp
    · rw [if_neg h2]
      have hcov := groupAux_flatten_perm plan.subtasks plan.dependencies
        plan.subtasks.length [] hids List.nodup_nil (by simp)
        (by rw [remainingTasks_empty_completed])
      rw [remainingTasks_empty_completed] at hcov
      exact hcov

/-- Every level produced by `groupByLevel` is nonempty. -/
theorem groupByLevel_levels_ne_nil (plan : TaskPlan)
    (hids : (idsOf plan.subtasks).Nodup) :
    ∀ L ∈ groupByLevel plan, L ≠ [] := by
  rw [groupByLevel]
  by_cases h1 : plan.subtasks.isEmpty
  · rw [if_pos h1]
    intro L hL
    simp at hL
  · rw [if_neg h1]
    by_cases h2 : plan.dependencies.isEmpty
    · rw [if_pos h2]
      intro L hL
      rw [List.mem_singleton] at hL
      subst hL
      exact fun h => h1 (by rw [h]; rfl)
    · rw [if_neg h2]
      exact groupAux_levels_ne_nil plan.subtasks plan.dependencies
        plan.subtasks.length [] hids List.nodup_nil (by simp)

/-! ### Dangling dependency ids: opaque but never satisfied -/

/-- Pairing of two dependency lists that agree on ids naming real subtasks
and differ only in which absent (dangling) ids they mention. -/
def DanglingEquiv (ids : List String) (l1 l2 : List String) : Prop :=
  List.Forall₂ (fun d e => (d = e ∧ d ∈ ids) ∨ (d ∉ ids ∧ e ∉ ids)) l1 l2

theorem depsDone_congr_aux {ids completed : List String}
    (hcS : ∀ x ∈ completed, x ∈ ids) :
    ∀ {l1 l2 : List String}, DanglingEquiv ids l1 l2 →
      l1.all (fun d => decide (d ∈ completed)) =
        l2.all (fun d => decide (d ∈ completed)) := by
  intro l1 l2 h
  induction h with
  | nil => rfl
  | @cons a b l1' l2' hR htail ih =>
    rw [List.all_cons, List.all_cons, ih]
    rcases hR with ⟨rfl, _⟩ | ⟨hd, he⟩
    · rfl
    · have hd' : a ∉ completed := fun h => hd (hcS _ h)
      have he' : b ∉ completed := fun h => he (hcS _ h)
      simp [hd', he']

theorem groupAux_congr (subtasks : List Subtask) (deps1 deps2 : DepMap)
    (hequiv : ∀ t ∈ subtasks,
      DanglingEquiv (idsOf subtasks) (depsOf deps1 t.id) (depsOf deps2 t.id)) :
    ∀ (fuel : Nat) (completed : List String),
      (∀ x ∈ completed, x ∈ idsOf subtasks) →
      groupAux subtasks deps1 fuel completed =
        groupAux subtasks deps2 fuel completed := by
  intro fuel
  induction fuel with
  | zero => intro completed _; rfl
  | succ fuel ih =>
    intro completed hcS
    have hdd : ∀ t ∈ subtasks,
        depsDone deps1 completed t = depsDone deps2 completed t := by
      intro t ht
      rw [depsDone, depsDone]
      exact depsDone_congr_aux hcS (hequiv t ht)
    have hqual : qualifiedTasks subtasks deps1 completed =
        qualifiedTasks subtasks deps2 completed := by
      rw [qualifiedTasks, qualifiedTasks]
      apply List.filter_congr
      intro t ht
      rw [hdd t ht]
    have hcur : currentLevel subtasks deps1 completed =
        currentLevel subtasks deps2 completed := by
      rw [currentLevel, currentLevel, hqual]
    rw [groupAux, groupAux]
    by_cases hlt : completed.length < subtasks.length
    · rw [if_pos hlt, if_pos hlt, hcur]
      rw [ih (markCompleted completed (currentLevel subtasks deps2 completed))
        (markCompleted_subset_ids hcS currentLevel_subset)]
    · rw [if_neg hlt, if_neg hlt]

/-- Replacing dangling dependency ids by other dangling ids never changes the
computed levels: the identity of an absent id is irrelevant (though, per the
counterexample, its presence is not). -/
theorem groupByLevel_dangling_congr (analysis1 analysis2 : String)
    (subtasks : List Subtask) (deps1 deps2 : DepMap)
    (h1 : deps1 ≠ []) (h2 : deps2 ≠ [])
    (hequiv : ∀ t ∈ subtasks,
      DanglingEquiv (idsOf subtasks) (depsOf deps1 t.id) (depsOf deps2 t.id)) :
    groupByLevel ⟨analysis1, subtasks, deps1⟩ =
      groupByLevel ⟨analysis2, subtasks, deps2⟩ := by
  rw [groupByLevel, groupByLevel]
  by_cases hs : subtasks.isEmpty
  · simp [hs]
  · simp only [hs, if_false]
    rw [if_neg (fun h => h1 (List.isEmpty_iff.mp h)),
      if_neg (fun h => h2 (List.isEmpty_iff.mp h))]
    exact groupAux_congr subtasks deps1 deps2 hequiv subtasks.length []
      (by simp)

/-! ### Concrete plans used by witnesses and counterexamples -/

def stA : Subtask := ⟨"task_1", "first step", "general", "in1"⟩

def stB : Subtask := ⟨"task_2", "second step", "general", "in2"⟩

/-- A two-task DAG: `task_2` depends on `task_1`. -/
def planDag : TaskPlan := ⟨"plan", [stA, stB], [("task_2", ["task_1"])]⟩

/-- A two-task dependency cycle. -/
def planCyclic : TaskPlan :=
  ⟨"plan", [stA, stB], [("task_1", ["task_2"]), ("task_2", ["task_1"])]⟩

/-- `task_2` references a dependency id that names no subtask. -/
def planDangling : TaskPlan :=
  ⟨"plan", [stA, stB], [("task_2", ["task_ghost"])]⟩

/-- The same plan with the dangling id removed from the dependency list. -/
def planNoDangling : TaskPlan := ⟨"plan", [stA, stB], [("task_2", [])]⟩

/-- The same plan with the dangling id renamed to another absent id. -/
def planDanglingRenamed : TaskPlan :=
  ⟨"plan", [stA, stB], [("task_2", ["task_phantom"])]⟩

/-! ### Claim C1 -/

/-- C1: for every plan whose dependency map forms a DAG over the subtask ids
(formalised as: every referenced dependency id names a subtask, the subtask
ids are unique as the data model requires, and a rank function witnesses
acyclicity), `groupByLevel` assigns every subtask to exactly one level (the
levels concatenate to a permutation of the unique-id subtask list), and for
every dependency edge (`a` depends on `b`) the level index of `a` is strictly
greater than the level index of `b`. -/
theorem c1_groupByLevel_dag (plan : TaskPlan) (rank : String → Nat)
    (hids : (idsOf plan.subtasks).Nodup)
    (hclosed : ∀ t ∈ plan.subtasks, ∀ d ∈ depsOf plan.dependencies t.id,
      d ∈ idsOf plan.subtasks)
    (hrank : ∀ t ∈ plan.subtasks, ∀ d ∈ depsOf plan.dependencies t.id,
      rank d < rank t.id) :
    List.Perm (groupByLevel plan).flatten plan.subtasks ∧
    ∀ a ∈ plan.subtasks, ∀ b ∈ depsOf plan.dependencies a.id,
      ∃ i j, idLevel (groupByLevel plan) a.id = some i ∧
        idLevel (groupByLevel plan) b = some j ∧ j < i := by
  refine ⟨groupByLevel_flatten_perm plan hids, ?_⟩
  intro a ha b hb
  rw [groupByLevel]
  have hsne : ¬ plan.subtasks.isEmpty := by
    intro h
    rw [List.isEmpty_iff.mp h] at ha
    simp at ha
  rw [if_neg hsne]
  by_cases h2 : plan.dependencies.isEmpty
  · exfalso
    rw [List.isEmpty_iff.mp h2] at hb
    rw [depsOf] at hb
    simp [List.find?] at hb
  · rw [if_neg h2]
    exact groupAux_dep_level_lt plan.subtasks plan.dependencies rank hids
      hclosed hrank plan.subtasks.length [] List.nodup_nil (by simp)
      (by rw [remainingTasks_empty_completed]) a ha (by simp) b hb (by simp)

/-- Witness for C1 at the concrete DAG plan `planDag`. -/
theorem c1_witness :
    (idsOf planDag.subtasks).Nodup ∧
    (List.Perm (groupByLevel planDag).flatten planDag.subtasks ∧
     ∀ a ∈ planDag.subtasks, ∀ b ∈ depsOf planDag.dependencies a.id,
       ∃ i j, idLevel (groupByLevel planDag) a.id = some i ∧
         idLevel (groupByLevel planDag) b = some j ∧ j < i) :=
  ⟨by decide,
   c1_groupByLevel_dag planDag
     (fun s => if s = "task_2" then 1 else 0)
     (by decide) (by decide) (by decide)⟩

/-! ### Claim C5 -/

/-- C5: for every plan with unique subtask ids — including plans whose
dependency map contains a cycle — `groupByLevel` terminates and every subtask
appears in exactly one level: the produced levels concatenate to a
permutation of the subtask list (no subtask dropped, none duplicated), and
every produced level is nonempty (when no remaining subtask qualifies, the
remaining tasks are flushed into the current level rather than looping). -/
theorem c5_groupByLevel_total (plan : TaskPlan)
    (hids : (idsOf plan.subtasks).Nodup) :
    List.Perm (groupByLevel plan).flatten plan.subtasks ∧
    ∀ L ∈ groupByLevel plan, L ≠ [] :=
  ⟨groupByLevel_flatten_perm plan hids, groupByLevel_levels_ne_nil plan hids⟩

/-- Witness for C5 at the concrete cyclic plan `planCyclic` (both tasks are
force-flushed into one level). -/
theorem c5_witness :
    (idsOf planCyclic.subtasks).Nodup ∧
    (List.Perm (groupByLevel planCyclic).flatten planCyclic.subtasks ∧
     ∀ L ∈ groupByLevel planCyclic, L ≠ []) ∧
    groupByLevel planCyclic = [[stA, stB]] :=
  ⟨by decide, c5_groupByLevel_total planCyclic (by decide), by decide⟩

/-! ### Claim C6 -/

/-- C6 counterexample: in `planDangling`, subtask `task_2` references the
absent id `task_ghost`. The code treats the dangling id as never satisfied,
so `task_2` is force-flushed into level 1; removing the dangling id from the
dependency list puts `task_2` into level 0. The claim, which says the
subtask is assigned to exactly the level it would receive were the dangling
id absent, is therefore false. -/
theorem c6_counterexample :
    idLevel (groupByLevel planDangling) "task_2" = some 1 ∧
    idLevel (groupByLevel planNoDangling) "task_2" = some 0 ∧
    idLevel (groupByLevel planDangling) "task_2" ≠
      idLevel (groupByLevel planNoDangling) "task_2" := by
  refine ⟨by decide, by decide, by decide⟩

/-- C6 amended: a dangling dependency id is treated as never satisfied, not
as satisfied; only its identity is ignored. Replacing dangling ids by any
other absent ids (pointwise, via `DanglingEquiv`) leaves every level
assignment unchanged, whereas removing a dangling id can move the subtask to
an earlier level. -/
theorem c6_dangling_opaque (analysis1 analysis2 : String)
    (subtasks : List Subtask) (deps1 deps2 : DepMap)
    (h1 : deps1 ≠ []) (h2 : deps2 ≠ [])
    (hequiv : ∀ t ∈ subtasks,
      DanglingEquiv (idsOf subtasks) (depsOf deps1 t.id) (depsOf deps2 t.id)) :
    groupByLevel ⟨analysis1, subtasks, deps1⟩ =
      groupByLevel ⟨analysis2, subtasks, deps2⟩ :=
  groupByLevel_dangling_congr analysis1 analysis2 subtasks deps1 deps2 h1 h2
    hequiv

/-- Witness for the amended C6: renaming the dangling id `task_ghost` to
`task_phantom` leaves the levels unchanged. -/
theorem c6_witness :
    groupByLevel planDangling = groupByLevel planDanglingRenamed := by
  have h := c6_dangling_opaque "plan" "plan" [stA, stB]
    [("task_2", ["task_ghost"])] [("task_2", ["task_phantom"])]
    (by decide) (by decide) ?_
  · exact h
  · intro t ht
    rw [DanglingEquiv]
    rcases List.mem_cons.mp ht with rfl | ht
    · have hd1 : depsOf [("task_2", ["task_ghost"])] stA.id = [] := by decide
      have hd2 : depsOf [("task_2", ["task_phantom"])] stA.id = [] := by decide
      rw [hd1, hd2]
      exact List.Forall₂.nil
    · rcases List.mem_cons.mp ht with rfl | ht
      · have hd1 : depsOf [("task_2", ["task_ghost"])] stB.id = ["task_ghost"] :=
          by decide
        have hd2 : depsOf [("task_2", ["task_phantom"])] stB.id =
            ["task_phantom"] := by decide
        rw [hd1, hd2]
        exact List.Forall₂.cons (Or.inr ⟨by decide, by decide⟩) List.Forall₂.nil
      · simp at ht

/-! ## Orchestrator run pipeline (orchestrator.go, agent types from
part_009, string helpers from reflexion.go)

The chat collaborator is a deterministic oracle; `encoding/json` decoding is
abstracted as an `unmarshalPlan` oracle, composed with the repository's own
`extractJSON`. Goroutine fan-out within a level is determinised to
sequential execution in task order. String slicing is by characters rather
than Go's bytes. -/

/-- `Usage` (part_009): token counts. -/
structure AUsage where
  promptTokens : Int
  completionTokens : Int
  totalTokens : Int
deriving DecidableEq

def zeroUsage : AUsage := ⟨0, 0, 0⟩

/-- `addUsage` (orchestrator.go). -/
def addUsage (a b : AUsage) : AUsage :=
  ⟨a.promptTokens + b.promptTokens, a.completionTokens + b.completionTokens,
    a.totalTokens + b.totalTokens⟩

/-- A chat message; also `agent.Message` for history. -/
structure ChatMessage where
  role : String
  content : String
deriving DecidableEq

structure ChatRequest where
  messages : List ChatMessage
  temperature : ℚ
deriving DecidableEq

structure ChatResponse where
  content : String
  usage : AUsage
deriving DecidableEq

structure ToolCall where
  name : String
  arguments : String
deriving DecidableEq

structure ChatToolsResponse where
  content : String
  toolCalls : List ToolCall
  usage : AUsage
deriving DecidableEq

structure ToolParams where
  typ : String
  properties : List (String × String)
  required : List String
deriving DecidableEq

structure FunctionDefinition where
  name : String
  description : String
  parameters : ToolParams
deriving DecidableEq

structure ToolDefinition where
  typ : String
  function : FunctionDefinition
deriving DecidableEq

structure ChatToolsRequest where
  messages : List ChatMessage
  tools : List ToolDefinition
deriving DecidableEq

/-- The chat capability (`llm.OpenAIClient`) as a deterministic oracle. -/
structure LLMClient where
  chat : ChatRequest → Except String ChatResponse
  chatWithTools : ChatToolsRequest → Except String ChatToolsResponse

/-- A registered tool (`tools.Tool`): name, schema, and executable body
whose successful result is already rendered to a string. -/
structure ATool where
  name : String
  description : String
  params : ToolParams
  exec : String → Except String String

abbrev Registry := List ATool

/-- `Registry.Get`. -/
def registryGet (reg : Registry) (n : String) : Option ATool :=
  reg.find? (fun t => t.name == n)

/-- `WorkerAgent` (orchestrator.go). -/
structure WorkerAgentM where
  name : String
  description : String
  systemPrompt : String
  tools : List String
  llm : Option LLMClient
  registry : Option Registry

structure AgentConfig where
  systemPrompt : String
  maxIterations : Int
  verbose : Bool

structure OrchestratorConfig where
  base : AgentConfig
  maxWorkers : Int
  planningPrompt : String
  synthesisPrompt : String

/-- `OrchestratorAgent` (orchestrator.go). -/
structure OrchestratorAgentM where
  llm : LLMClient
  tools : Registry
  workers : List (String × WorkerAgentM)
  config : OrchestratorConfig

/-- `SubtaskResult` (orchestrator.go). -/
structure SubtaskResult where
  id : String
  success : Bool
  output : String
  error : String
  duration : Int
deriving DecidableEq

/-- `Step` (part_009). -/
structure Step where
  typ : String
  content : String
  toolName : String
  toolInput : String
  toolOutput : String
deriving DecidableEq

/-- `Response` (part_009). The orchestrator never sets `Metadata`, so the
field is omitted. -/
structure AgentResponse where
  output : String
  steps : List Step
  usage : AUsage
deriving DecidableEq

/-! ### String helpers (reflexion.go) -/

/-- `truncate` (reflexion.go), with character rather than byte indexing. -/
def truncate (s : String) (maxLen : Nat) : String :=
  if s.length ≤ maxLen then s
  else ((s.toList.take (maxLen - 3)).asString) ++ "..."

/-- First index at which `sub` occurs, as in `strings.Index`. -/
def subIndex (sub : List Char) : List Char → Nat → Option Nat
  | [], i => if sub.isEmpty then some i else none
  | c :: rest, i =>
    if sub.isPrefixOf (c :: rest) then some i else subIndex sub rest (i + 1)

/-- Last index of character `c`, as in `strings.LastIndex` with a
one-character needle. -/
def lastIdxOf (c : Char) (cs : List Char) : Option Nat :=
  match cs.reverse.findIdx? (fun x => x == c) with
  | some i => some (cs.length - 1 - i)
  | none => none

def braceOpenChar : Char := Char.ofNat 123

def braceCloseChar : Char := Char.ofNat 125

/-- The raw-JSON tail of `extractJSON`: the slice from the first opening
brace to the last closing brace, inclusive. (When the last closing brace
precedes the first opening brace Go would panic on the slice; the model
yields the empty slice there instead.) -/
def rawBraces (cs : List Char) : List Char :=
  match cs.findIdx? (fun x => x == braceOpenChar) with
  | some st =>
    match lastIdxOf braceCloseChar cs with
    | some en => (cs.drop st).take (en + 1 - st)
    | none => cs
  | none => cs

/-- `extractJSON` (reflexion.go): strip a markdown code fence when present,
else fall back to the brace-delimited slice. When an opening fence has no
closing fence, Go has already sliced `s` past the fence before falling
through, which the nested matches reproduce. -/
def extractJSON (s : String) : String :=
  let cs := s.toList
  match subIndex "```json".toList cs 0 with
  | some st =>
    let s' := cs.drop (st + 7)
    match subIndex "```".toList s' 0 with
    | some en => ((s'.take en).asString).trim
    | none => (rawBraces s').asString
  | none =>
    match subIndex "```".toList cs 0 with
    | some st =>
      let s' := cs.drop (st + 3)
      match subIndex "```".toList s' 0 with
      | some en => ((s'.take en).asString).trim
      | none => (rawBraces s').asString
    | none => (rawBraces cs).asString

/-- `fmt.Sprintf` restricted to `%s` verbs: interleave the parts of the
format string with the arguments (missing arguments render Go's
`%!s(MISSING)` marker; surplus arguments are dropped). -/
def formatParts : List String → List String → String
  | [], _ => ""
  | [p], _ => p
  | p :: ps, [] => p ++ "%!s(MISSING)" ++ formatParts ps []
  | p :: ps, a :: args => p ++ a ++ formatParts ps args

def formatS (f : String) (args : List String) : String :=
  formatParts (f.splitOn "%s") args

/-! ### Plan creation (createPlan, orchestrator.go lines 246-279) -/

/-- The request sent by `createPlan`. -/
def planChatRequest (o : OrchestratorAgentM) (query : String) : ChatRequest :=
  ⟨[⟨"system", o.config.base.systemPrompt⟩,
    ⟨"user", formatS o.config.planningPrompt [query]⟩], 3 / 10⟩

/-- The single-subtask plan substituted when JSON decoding fails. -/
def fallbackPlan (query : String) : TaskPlan :=
  ⟨"Direct execution", [⟨"task_1", query, "general", query⟩], []⟩

/-- Plan decoding: `json.Unmarshal(extractJSON(content))`, with the
unmarshaller abstracted as an oracle, falling back to `fallbackPlan`. -/
def decodePlan (unmarshalPlan : String → Option TaskPlan)
    (content query : String) : TaskPlan :=
  match unmarshalPlan (extractJSON content) with
  | some p => p
  | none => fallbackPlan query

/-- `createPlan`. -/
def createPlan (o : OrchestratorAgentM)
    (unmarshalPlan : String → Option TaskPlan) (query : String) :
    Except String (TaskPlan × AUsage) :=
  match o.llm.chat (planChatRequest o query) with
  | .error e => .error e
  | .ok resp => .ok (decodePlan unmarshalPlan resp.content query, resp.usage)

/-! ### Subtask execution (orchestrator.go lines 281-445, 477-591) -/

def lookupResult (m : List (String × SubtaskResult)) (k : String) :
    Option SubtaskResult :=
  (m.find? (fun p => p.1 == k)).map Prod.snd

/-- Go map assignment `results[id] = r`: replace or append. -/
def setAssoc (m : List (String × SubtaskResult)) (k : String)
    (v : SubtaskResult) : List (String × SubtaskResult) :=
  if m.any (fun p => p.1 == k) then
    m.map (fun p => if p.1 == k then (k, v) else p)
  else m ++ [(k, v)]

/-- `buildTaskInput`. -/
def buildTaskInput (task : Subtask) (deps : DepMap)
    (results : List (String × SubtaskResult)) : String :=
  let taskDeps := depsOf deps task.id
  if taskDeps = [] then task.input
  else
    task.input ++ "\n\nContext from previous tasks:\n" ++
      String.join (taskDeps.map (fun depID =>
        match lookupResult results depID with
        | some res =>
          if res.success then
            "- " ++ depID ++ ": " ++ truncate res.output 200 ++ "\n"
          else ""
        | none => ""))

/-- The request of `executeDefault`. -/
def defaultChatRequest (input : String) : ChatRequest :=
  ⟨[⟨"system", "You are a helpful assistant. Complete the given task."⟩,
    ⟨"user", input⟩], 0⟩

/-- `executeDefault`: direct chat execution; this is the only path that
writes the subtask's id into the result. -/
def executeDefault (o : OrchestratorAgentM) (task : Subtask) (input : String) :
    SubtaskResult × AUsage :=
  match o.llm.chat (defaultChatRequest input) with
  | .error e => (⟨task.id, false, "", e, 0⟩, zeroUsage)
  | .ok resp => (⟨task.id, true, resp.content, "", 0⟩, resp.usage)

/-- The worker's effective system prompt. -/
def workerPrompt (w : WorkerAgentM) : String :=
  if w.systemPrompt = "" then
    "You are a " ++ w.name ++ " agent. " ++ w.description
  else w.systemPrompt

def workerChatRequest (w : WorkerAgentM) (input : String) : ChatRequest :=
  ⟨[⟨"system", workerPrompt w⟩, ⟨"user", input⟩], 0⟩

/-- The plain (no tools) chat path of `WorkerAgent.Execute`; note the
returned result has an empty id. -/
def plainWorkerChat (llm : LLMClient) (w : WorkerAgentM) (input : String) :
    SubtaskResult × AUsage :=
  match llm.chat (workerChatRequest w input) with
  | .error e => (⟨"", false, "", e, 0⟩, zeroUsage)
  | .ok resp => (⟨"", true, resp.content, "", 0⟩, resp.usage)

def toolDefOf (t : ATool) : ToolDefinition :=
  ⟨"function", ⟨t.name, t.description, t.params⟩⟩

/-- The filtered tool registry built by `Execute`. -/
def filteredToolDefs (w : WorkerAgentM) (reg : Registry) :
    List ToolDefinition :=
  w.tools.filterMap (fun tn => (registryGet reg tn).map toolDefOf)

/-- Sequential execution of requested tool calls; unknown tools are
skipped, tool errors are embedded per-tool. -/
def runToolCalls (reg : Registry) (tcs : List ToolCall) : List String :=
  tcs.filterMap (fun tc =>
    match registryGet reg tc.name with
    | none => none
    | some tool =>
      match tool.exec tc.arguments with
      | .error e => some (tc.name ++ " error: " ++ e)
      | .ok out => some (tc.name ++ ": " ++ out))

/-- `executeWithTools`; all results carry an empty id. -/
def executeWithTools (llm : LLMClient) (reg : Registry)
    (input prompt : String) (tools : List ToolDefinition) :
    SubtaskResult × AUsage :=
  match llm.chatWithTools ⟨[⟨"system", prompt⟩, ⟨"user", input⟩], tools⟩ with
  | .error e => (⟨"", false, "", e, 0⟩, zeroUsage)
  | .ok resp =>
    if resp.toolCalls.isEmpty then
      (⟨"", true, resp.content, "", 0⟩, resp.usage)
    else
      (⟨"", true, String.intercalate "\n" (runToolCalls reg resp.toolCalls),
        "", 0⟩, resp.usage)

/-- `WorkerAgent.Execute`. -/
def workerExecute (w : WorkerAgentM) (input : String) :
    SubtaskResult × AUsage :=
  match w.llm with
  | none => (⟨"no-llm", false, "", "LLM not configured for worker", 0⟩, zeroUsage)
  | some llm =>
    match w.tools, w.registry with
    | _ :: _, some reg =>
      let ftools := filteredToolDefs w reg
      if ftools.isEmpty then plainWorkerChat llm w input
      else executeWithTools llm reg input (workerPrompt w) ftools
    | _, _ => plainWorkerChat llm w input

def lookupWorker (ws : List (String × WorkerAgentM)) (k : String) :
    Option WorkerAgentM :=
  (ws.find? (fun p => p.1 == k)).map Prod.snd

/-- `executeSubtask`: named worker, else the `general` worker, else the
default direct execution. -/
def executeSubtask (o : OrchestratorAgentM) (task : Subtask) (input : String) :
    SubtaskResult × AUsage :=
  match lookupWorker o.workers task.workerType with
  | some w => workerExecute w input
  | none =>
    match lookupWorker o.workers "general" with
    | some w => workerExecute w input
    | none => executeDefault o task input

/-- One subtask of a level: build the input from recorded dependency
results, execute, record result and usage. -/
def execLevelStep (o : OrchestratorAgentM) (deps : DepMap)
    (acc : List SubtaskResult × List (String × SubtaskResult) × AUsage)
    (t : Subtask) :
    List SubtaskResult × List (String × SubtaskResult) × AUsage :=
  let input := buildTaskInput t deps acc.2.1
  let ru := executeSubtask o t input
  (acc.1 ++ [ru.1], setAssoc acc.2.1 t.id ru.1, addUsage acc.2.2 ru.2)

/-- `executeSubtasks`: levels in order; tasks within a level sequentially
(one admissible schedule of the bounded-parallel fan-out). -/
def executeSubtasks (o : OrchestratorAgentM) (plan : TaskPlan) :
    List SubtaskResult × AUsage :=
  let final := (groupByLevel plan).foldl
    (fun acc lvl => lvl.foldl (execLevelStep o plan.dependencies) acc)
    ([], [], zeroUsage)
  (final.1, final.2.2)

/-! ### Synthesis and the run (orchestrator.go lines 182-243, 447-475) -/

def synthBody (results : List SubtaskResult) : String :=
  String.join (results.map (fun r =>
    "[" ++ (if r.success then "✓" else "✗") ++ "] " ++ r.id ++ ": " ++
      r.output ++ "\n\n"))

def synthChatRequest (o : OrchestratorAgentM) (query : String)
    (results : List SubtaskResult) : ChatRequest :=
  ⟨[⟨"system",
      "You are a skilled synthesizer. Create coherent responses from multiple inputs."⟩,
    ⟨"user", formatS o.config.synthesisPrompt [query, synthBody results]⟩], 0⟩

/-- `synthesize`. -/
def synthesize (o : OrchestratorAgentM) (query : String)
    (results : List SubtaskResult) : Except String (String × AUsage) :=
  match o.llm.chat (synthChatRequest o query results) with
  | .error e => .error e
  | .ok resp => .ok (resp.content, resp.usage)

/-- One observation/error step per subtask result. -/
def resultSteps (results : List SubtaskResult) : List Step :=
  results.map (fun r =>
    ⟨if r.success then "observation" else "error", "", r.id, "", r.output⟩)

/-- `RunWithHistory`. The `history` parameter is received but never read by
the source function. -/
def runWithHistory (o : OrchestratorAgentM)
    (unmarshalPlan : String → Option TaskPlan)
    (history : List ChatMessage) (query : String) :
    Except String AgentResponse :=
  match createPlan o unmarshalPlan query with
  | .error e => .error ("planning failed: " ++ e)
  | .ok pu =>
    let ru := executeSubtasks o pu.1
    match synthesize o query ru.1 with
    | .error e => .error ("synthesis failed: " ++ e)
    | .ok su =>
      .ok ⟨su.1,
        ⟨"planning", pu.1.analysis, "", "", ""⟩ ::
          (resultSteps ru.1 ++ [⟨"synthesis", su.1, "", "", ""⟩]),
        addUsage (addUsage pu.2 ru.2) su.2⟩

/-- `Run`: `RunWithHistory` with empty history. -/
def runQuery (o : OrchestratorAgentM)
    (unmarshalPlan : String → Option TaskPlan) (query : String) :
    Except String AgentResponse :=
  runWithHistory o unmarshalPlan [] query

/-! ### Execution produces exactly one result per leveled subtask -/

theorem execLevel_foldl_length (o : OrchestratorAgentM) (deps : DepMap) :
    ∀ (lvl : List Subtask)
      (acc : List SubtaskResult × List (String × SubtaskResult) × AUsage),
      ((lvl.foldl (execLevelStep o deps) acc).1).length =
        acc.1.length + lvl.length := by
  intro lvl
  induction lvl with
  | nil => intro acc; simp
  | cons t lvl ih =>
    intro acc
    rw [List.foldl_cons, ih]
    rw [execLevelStep]
    simp
    omega

/-- Every subtask placed in a level yields exactly one recorded
`SubtaskResult`, regardless of per-subtask failures: no subtask execution
aborts its siblings or the run. -/
theorem executeSubtasks_length (o : OrchestratorAgentM) (plan : TaskPlan) :
    ((executeSubtasks o plan).1).length =
      ((groupByLevel plan).flatten).length := by
  rw [executeSubtasks]
  suffices h : ∀ (levels : List (List Subtask))
      (acc : List SubtaskResult × List (String × SubtaskResult) × AUsage),
      ((levels.foldl
          (fun acc lvl => lvl.foldl (execLevelStep o plan.dependencies) acc)
          acc).1).length = acc.1.length + (levels.flatten).length by
    have := h (groupByLevel plan) ([], [], zeroUsage)
    simpa using this
  intro levels
  induction levels with
  | nil => intro acc; simp
  | cons lvl levels ih =>
    intro acc
    rw [List.foldl_cons, ih, execLevel_foldl_length, List.flatten_cons]
    simp
    omega

/-! ### Claim C9 -/

/-- C9: `RunWithHistory` never reads its history argument; with the chat
capability and plan decoder fixed, two runs that differ only in the history
produce identical `Response` values (output, steps and usage alike). -/
theorem c9_history_independent (o : OrchestratorAgentM)
    (unmarshalPlan : String → Option TaskPlan)
    (h₁ h₂ : List ChatMessage) (q : String) :
    runWithHistory o unmarshalPlan h₁ q = runWithHistory o unmarshalPlan h₂ q :=
  rfl

/-! ### Claim C4 -/

/-- C4: the orchestrator's error policy. (i) A failing planning chat call is
the fatal error `planning failed: …`. (ii) When the planning call succeeds
but the JSON does not decode, `createPlan` substitutes the single-subtask
fallback plan (worker_type `general`, input = query) and does not fail.
(iii) A failing chat call on the default subtask path is recorded as a
result with `success = false` and the error message, and (iv) likewise on
the worker path. (v) Execution records exactly one result per leveled
subtask — failures abort neither siblings nor the run. (vi) Once planning
succeeded, the run returns a fatal error exactly when the synthesis chat
call on the computed results fails, as `synthesis failed: …`. -/
theorem c4_error_policy :
    (∀ (o : OrchestratorAgentM) (um : String → Option TaskPlan)
        (h : List ChatMessage) (q e : String),
      o.llm.chat (planChatRequest o q) = .error e →
      runWithHistory o um h q = .error ("planning failed: " ++ e)) ∧
    (∀ (o : OrchestratorAgentM) (um : String → Option TaskPlan)
        (q : String) (r : ChatResponse),
      o.llm.chat (planChatRequest o q) = .ok r →
      um (extractJSON r.content) = none →
      createPlan o um q = .ok (fallbackPlan q, r.usage)) ∧
    (∀ (o : OrchestratorAgentM) (t : Subtask) (input e : String),
      o.llm.chat (defaultChatRequest input) = .error e →
      executeDefault o t input = (⟨t.id, false, "", e, 0⟩, zeroUsage)) ∧
    (∀ (w : WorkerAgentM) (llm : LLMClient) (input e : String),
      w.llm = some llm → w.tools = [] →
      llm.chat (workerChatRequest w input) = .error e →
      workerExecute w input = (⟨"", false, "", e, 0⟩, zeroUsage)) ∧
    (∀ (o : OrchestratorAgentM) (plan : TaskPlan),
      ((executeSubtasks o plan).1).length =
        ((groupByLevel plan).flatten).length) ∧
    (∀ (o : OrchestratorAgentM) (um : String → Option TaskPlan)
        (h : List ChatMessage) (q : String) (r : ChatResponse),
      o.llm.chat (planChatRequest o q) = .ok r →
      ∀ s, runWithHistory o um h q = .error s ↔
        ∃ e, o.llm.chat (synthChatRequest o q
            (executeSubtasks o (decodePlan um r.content q)).1) = .error e ∧
          s = "synthesis failed: " ++ e) := by
  refine ⟨?_, ?_, ?_, ?_, ?_, ?_⟩
  · intro o um h q e hchat
    rw [runWithHistory, createPlan, hchat]
  · intro o um q r hchat hum
    simp [createPlan, hchat, decodePlan, hum]
  · intro o t input e hchat
    rw [executeDefault, hchat]
  · intro w llm input e hllm htools hchat
    obtain ⟨nm, ds, sp, tl, wl, wr⟩ := w
    simp only at hllm htools
    subst hllm htools
    rw [workerExecute]
    cases wr with
    | none => simp [plainWorkerChat, hchat]
    | some reg => simp [plainWorkerChat, hchat]
  · intro o plan
    exact executeSubtasks_length o plan
  · intro o um h q r hchat s
    have hcp : createPlan o um q = .ok (decodePlan um r.content q, r.usage) := by
      rw [createPlan, hchat]
    rw [runWithHistory, hcp]
    simp only [synthesize]
    cases hsy : o.llm.chat (synthChatRequest o q
        (executeSubtasks o (decodePlan um r.content q)).1) with
    | error e => simp [hsy, eq_comm]
    | ok pr => simp [hsy]

/-! ### Concrete oracles for witnesses and counterexamples -/

/-- A chat oracle whose every call fails. -/
def chatFail : LLMClient :=
  ⟨fun _ => .error "boom", fun _ => .error "boom"⟩

/-- A chat oracle that always answers with non-JSON content. -/
def chatOkBad : LLMClient :=
  ⟨fun _ => .ok ⟨"not json at all", ⟨1, 2, 3⟩⟩, fun _ => .error "no tools"⟩

/-- A chat oracle that always answers `done`. -/
def chatOkSimple : LLMClient :=
  ⟨fun _ => .ok ⟨"done", zeroUsage⟩, fun _ => .error "no tools"⟩

/-- A plan decoder that always fails (malformed JSON). -/
def umNone : String → Option TaskPlan := fun _ => none

def cfg0 : OrchestratorConfig :=
  ⟨⟨"sys prompt", 10, false⟩, 5, "Plan this: %s", "Synthesize %s from %s"⟩

def oFail : OrchestratorAgentM := ⟨chatFail, [], [], cfg0⟩

def oBad : OrchestratorAgentM := ⟨chatOkBad, [], [], cfg0⟩

/-- A `general` worker with a failing chat capability and no tools. -/
def wNoTools : WorkerAgentM :=
  ⟨"general", "a general worker", "do it", [], some chatFail, none⟩

/-- A `general` worker with a succeeding chat capability and no tools. -/
def wGeneral : WorkerAgentM :=
  ⟨"general", "a general worker", "do it", [], some chatOkSimple, none⟩

/-- A worker whose chat capability was never bound. -/
def wNoLLM : WorkerAgentM := ⟨"lonely", "no llm", "", [], none, none⟩

/-- An orchestrator with a registered `general` worker. -/
def oWithWorker : OrchestratorAgentM :=
  ⟨chatOkSimple, [], [("general", wGeneral)], cfg0⟩

/-- Witness for C4 at concrete oracles: a failing planning call is fatal; a
malformed-JSON planning response yields the fallback plan; a failing
subtask chat is recorded, not propagated; execution yields one result per
leveled subtask; and the error-iff-synthesis characterisation instantiated. -/
theorem c4_witness :
    runWithHistory oFail umNone [] "q" = .error ("planning failed: " ++ "boom") ∧
    createPlan oBad umNone "q" = .ok (fallbackPlan "q", ⟨1, 2, 3⟩) ∧
    executeDefault oFail stA "in" = (⟨stA.id, false, "", "boom", 0⟩, zeroUsage) ∧
    workerExecute wNoTools "in" = (⟨"", false, "", "boom", 0⟩, zeroUsage) ∧
    ((executeSubtasks oFail planDag).1).length =
      ((groupByLevel planDag).flatten).length ∧
    (runWithHistory oBad umNone [] "q" = .error "x" ↔
      ∃ e, oBad.llm.chat (synthChatRequest oBad "q"
          (executeSubtasks oBad
            (decodePlan umNone "not json at all" "q")).1) = .error e ∧
        "x" = "synthesis failed: " ++ e) := by
  obtain ⟨h1, h2, h3, h4, h5, h6⟩ := c4_error_policy
  exact ⟨h1 oFail umNone [] "q" "boom" rfl,
    h2 oBad umNone "q" ⟨"not json at all", ⟨1, 2, 3⟩⟩ rfl rfl,
    h3 oFail stA "in" "boom" rfl,
    h4 wNoTools chatFail "in" "boom" rfl rfl rfl,
    h5 oFail planDag,
    h6 oBad umNone [] "q" ⟨"not json at all", ⟨1, 2, 3⟩⟩ rfl "x"⟩

/-! ### Claim C7 -/

/-- C7 counterexample: a subtask dispatched to a registered worker (here the
`general` worker, succeeding chat call) produces a `SubtaskResult` whose id
field is the empty string, not the subtask's id `task_1`: worker executions
never write the subtask's id into the result. -/
theorem c7_counterexample :
    (executeSubtask oWithWorker stA "in").1.id = "" ∧
    stA.id = "task_1" ∧
    (executeSubtask oWithWorker stA "in").1.id ≠ stA.id :=
  ⟨rfl, rfl, by decide⟩

/-- C7 amended: exactly one `SubtaskResult` is recorded per leveled subtask
(conjunct four), but the result's id field equals the subtask's id only on
the default direct-chat path; any worker execution returns id `""` when a
chat capability is bound (success or failure, tools or not) and id
`"no-llm"` when none is. -/
theorem c7_result_id :
    (∀ (o : OrchestratorAgentM) (t : Subtask) (input : String),
      (executeDefault o t input).1.id = t.id) ∧
    (∀ (w : WorkerAgentM) (input : String), w.llm = none →
      (workerExecute w input).1.id = "no-llm") ∧
    (∀ (w : WorkerAgentM) (llm : LLMClient) (input : String),
      w.llm = some llm → (workerExecute w input).1.id = "") ∧
    (∀ (o : OrchestratorAgentM) (plan : TaskPlan),
      ((executeSubtasks o plan).1).length =
        ((groupByLevel plan).flatten).length) := by
  refine ⟨?_, ?_, ?_, ?_⟩
  · intro o t input
    rw [executeDefault]
    cases o.llm.chat (defaultChatRequest input) <;> rfl
  · intro w input hllm
    obtain ⟨nm, ds, sp, tl, wl, wr⟩ := w
    simp only at hllm
    subst hllm
    rfl
  · intro w llm input hllm
    obtain ⟨nm, ds, sp, tl, wl, wr⟩ := w
    simp only at hllm
    subst hllm
    rw [workerExecute]
    have hplain : ∀ w' : WorkerAgentM,
        (plainWorkerChat llm w' input).1.id = "" := by
      intro w'
      rw [plainWorkerChat]
      cases llm.chat (workerChatRequest w' input) <;> rfl
    cases tl with
    | nil => exact hplain _
    | cons t0 tl =>
      cases wr with
      | none => exact hplain _
      | some reg =>
        simp only []
        by_cases hf : (filteredToolDefs ⟨nm, ds, sp, t0 :: tl, some llm, some reg⟩ reg).isEmpty
        · rw [if_pos hf]
          exact hplain _
        · rw [if_neg hf, executeWithTools]
          cases llm.chatWithTools _ with
          | error e => rfl
          | ok resp =>
            by_cases ht : resp.toolCalls.isEmpty
            · simp [ht]
            · simp [ht]
  · exact executeSubtasks_length

/-- Witness for the amended C7 at concrete workers. -/
theorem c7_witness :
    (executeDefault oFail stA "in").1.id = stA.id ∧
    (workerExecute wNoLLM "in").1.id = "no-llm" ∧
    (workerExecute wGeneral "in").1.id = "" :=
  ⟨c7_result_id.1 oFail stA "in",
   c7_result_id.2.1 wNoLLM "in" rfl,
   c7_result_id.2.2.1 wGeneral chatOkSimple "in" rfl⟩

/-! ## Embedding math (part_006) and the RAPTOR store (part_007)

Go `float32` values are idealized as exact rationals; the source's Newton
square root is reproduced literally over `ℚ`. -/

/-- The ten Newton iterations of `sqrt` (part_006). -/
def newtonIter (x : ℚ) : Nat → ℚ → ℚ
  | 0, z => z
  | n + 1, z => newtonIter x n (z - (z * z - x) / (2 * z))

/-- `sqrt` (part_006): guard for non-positive input, then Newton's method
from `x/2`. -/
def sqrtQ (x : ℚ) : ℚ := if x ≤ 0 then 0 else newtonIter x 10 (x / 2)

/-- The accumulation loop of `CosineSimilarity` specialised to one product
sum (the source accumulates `dot`, `normA`, `normB` over the same index
range, which equals three such sums). -/
def dotQ (a b : List ℚ) : ℚ :=
  (List.zipWith (fun x y => x * y) a b).foldl (· + ·) 0

/-- `CosineSimilarity` (part_006): mismatched or empty vectors score 0, as
do vectors with a zero norm; otherwise `dot / (sqrt normA * sqrt normB)`. -/
def CosineSimilarity (a b : List ℚ) : ℚ :=
  if a.length ≠ b.length ∨ a.length = 0 then 0
  else if dotQ a a = 0 ∨ dotQ b b = 0 then 0
  else dotQ a b / (sqrtQ (dotQ a a) * sqrtQ (dotQ b b))

/-- A metadata value (`map[string]any` carries ints and strings here). -/
inductive MetaVal where
  | int (i : Int)
  | str (s : String)
deriving DecidableEq

/-- `embedding.Document` (part_006). -/
structure Document where
  id : String
  content : String
  embedding : List ℚ
  metadata : List (String × MetaVal)
deriving DecidableEq

/-- `TreeNode` (part_007). The `Parent` back-pointer is omitted: it is
written but only read by `SearchWithContext`/`findNode`, which no claim
exercises, and a cyclic pointer has no place in a purely functional tree. -/
inductive TreeNode where
  | node (id : String) (level : Nat) (content : String) (summary : String)
      (embedding : List ℚ) (children : List TreeNode)
      (documents : List String) (metadata : List (String × MetaVal))

def TreeNode.id : TreeNode → String
  | .node i _ _ _ _ _ _ _ => i

def TreeNode.level : TreeNode → Nat
  | .node _ lv _ _ _ _ _ _ => lv

def TreeNode.content : TreeNode → String
  | .node _ _ c _ _ _ _ _ => c

def TreeNode.summary : TreeNode → String
  | .node _ _ _ s _ _ _ _ => s

def TreeNode.embedding : TreeNode → List ℚ
  | .node _ _ _ _ e _ _ _ => e

def TreeNode.children : TreeNode → List TreeNode
  | .node _ _ _ _ _ cs _ _ => cs

def TreeNode.documents : TreeNode → List String
  | .node _ _ _ _ _ _ ds _ => ds

def TreeNode.metadata : TreeNode → List (String × MetaVal)
  | .node _ _ _ _ _ _ _ m => m

/-- `SearchResult` (store.go). -/
structure SearchResult where
  document : Document
  score : ℚ
deriving DecidableEq

/-- `RAPTORConfig` (part_007). -/
structure RAPTORConfig where
  maxLevels : Nat
  clusterSize : Nat
  similarityThreshold : ℚ
  maxChildrenPerNode : Nat
deriving DecidableEq

/-- `RAPTORTree`: the levels map, as an association list over the level
number. -/
structure RAPTORTree where
  root : Option TreeNode
  levels : List (Nat × List TreeNode)

/-- Map read `tree.Levels[level]` (nil slice when absent). -/
def getLevel (levels : List (Nat × List TreeNode)) (lv : Nat) :
    List TreeNode :=
  match levels.find? (fun p => p.1 == lv) with
  | some p => p.2
  | none => []

/-- Map write `tree.Levels[level] = ns`. -/
def setLevel (levels : List (Nat × List TreeNode)) (lv : Nat)
    (ns : List TreeNode) : List (Nat × List TreeNode) :=
  if levels.any (fun p => p.1 == lv) then
    levels.map (fun p => if p.1 == lv then (lv, ns) else p)
  else levels ++ [(lv, ns)]

/-! ### Greedy clustering (clusterNodes, part_007 lines 221-256) -/

/-- The inner scan of `clusterNodes`: starting from a seed's cluster of
current size `k`, greedily take later unvisited nodes whose similarity to
the seed meets the threshold, until the cluster is full; returns the taken
nodes and the leftover (still unvisited) ones in order. -/
def collectCluster (cfg : RAPTORConfig) (seed : TreeNode) :
    Nat → List TreeNode → List TreeNode × List TreeNode
  | _, [] => ([], [])
  | k, n :: rest =>
    if cfg.clusterSize ≤ k then ([], n :: rest)
    else if cfg.similarityThreshold ≤
        CosineSimilarity seed.embedding n.embedding then
      let p := collectCluster cfg seed (k + 1) rest
      (n :: p.1, p.2)
    else
      let p := collectCluster cfg seed k rest
      (p.1, n :: p.2)

theorem collectCluster_snd_length (cfg : RAPTORConfig) (seed : TreeNode) :
    ∀ (k : Nat) (rest : List TreeNode),
      (collectCluster cfg seed k rest).2.length ≤ rest.length := by
  intro k rest
  induction rest generalizing k with
  | nil => simp [collectCluster]
  | cons n rest ih =>
    rw [collectCluster]
    by_cases h1 : cfg.clusterSize ≤ k
    · rw [if_pos h1]
    · rw [if_neg h1]
      by_cases h2 : cfg.similarityThreshold ≤
          CosineSimilarity seed.embedding n.embedding
      · rw [if_pos h2]
        exact le_trans (ih (k + 1)) (Nat.le_succ _)
      · rw [if_neg h2]
        simpa using ih k

/-- The outer scan of `clusterNodes`: each first unvisited node seeds a new
cluster. -/
def clusterGo (cfg : RAPTORConfig) : List TreeNode → List (List TreeNode)
  | [] => []
  | seed :: rest =>
    (seed :: (collectCluster cfg seed 1 rest).1) ::
      clusterGo cfg (collectCluster cfg seed 1 rest).2
termination_by l => l.length
decreasing_by
  have := collectCluster_snd_length cfg seed 1 rest
  simp only [List.length_cons]
  omega

/-- `clusterNodes`: at most `clusterSize` inputs form one single cluster. -/
def clusterNodes (cfg : RAPTORConfig) (nodes : List TreeNode) :
    List (List TreeNode) :=
  if nodes.length ≤ cfg.clusterSize then [nodes] else clusterGo cfg nodes

/-! ### Tree building (Add and buildTree, part_007 lines 97-219) -/

/-- The summarization collaborator as a deterministic oracle. -/
abbrev SummarizeFn := List String → Except String String

/-- The embedding collaborator as a deterministic oracle. -/
abbrev EmbedFn := String → Except String (List ℚ)

/-- The texts summarized for a cluster: each member's summary, or its raw
content for leaves. -/
def clusterContents (cluster : List TreeNode) : List String :=
  cluster.map (fun n => if n.summary ≠ "" then n.summary else n.content)

/-- The concatenation fallback used when summarization fails (truncated to
500 characters, by characters rather than Go's bytes). -/
def fallbackSummary (contents : List String) : String :=
  let j := String.intercalate "\n\n" contents
  if 500 < j.length then ((j.toList.take 500).asString) ++ "..." else j

/-- The parent node built for one cluster, or `none` when the cluster is
empty or its summary fails to embed (the cluster is silently dropped). -/
def mkParent (summarize : SummarizeFn) (embed : EmbedFn) (level i : Nat)
    (cluster : List TreeNode) : Option TreeNode :=
  if cluster.isEmpty then none
  else
    let contents := clusterContents cluster
    let summary :=
      match summarize contents with
      | .ok s => s
      | .error _ => fallbackSummary contents
    match embed summary with
    | .error _ => none
    | .ok emb =>
      some (.node ("cluster_l" ++ toString level ++ "_" ++ toString i) level
        "" summary emb cluster (cluster.map TreeNode.documents).flatten
        [("level", .int level), ("child_count", .int cluster.length)])

/-- One round's parent nodes, indexed by cluster position. -/
def buildParents (summarize : SummarizeFn) (embed : EmbedFn) (level : Nat)
    (clusters : List (List TreeNode)) : List TreeNode :=
  clusters.enum.filterMap (fun p => mkParent summarize embed level p.1 p.2)

/-- The `for level < MaxLevels && len(currentLevel) > 1` loop of `buildTree`.
Returns the updated levels map, the final current level, and the final value
of the loop counter (already incremented on the no-progress break path, as
in the source). -/
def buildLoop (cfg : RAPTORConfig) (summarize : SummarizeFn) (embed : EmbedFn)
    (level : Nat) (current : List TreeNode)
    (levels : List (Nat × List TreeNode)) :
    List (Nat × List TreeNode) × List TreeNode × Nat :=
  if h : level < cfg.maxLevels ∧ 1 < current.length then
    let clusters := clusterNodes cfg current
    if clusters.length = current.length then (levels, current, level + 1)
    else
      let parents := buildParents summarize embed (level + 1) clusters
      buildLoop cfg summarize embed (level + 1) parents
        (setLevel levels (level + 1) parents)
  else (levels, current, level)
termination_by cfg.maxLevels - level
decreasing_by omega

/-- `buildTree`: run the loop, then set the root — the single remaining
node, or a synthetic aggregator node at `level + 1` when several remain, or
the previous root when none remains. -/
def buildTreeF (cfg : RAPTORConfig) (summarize : SummarizeFn)
    (embed : EmbedFn) (tree : RAPTORTree) (nodes : List TreeNode) :
    RAPTORTree :=
  let r := buildLoop cfg summarize embed 0 nodes tree.levels
  if r.2.1.length = 1 then ⟨r.2.1.head?, r.1⟩
  else if 1 < r.2.1.length then
    ⟨some (.node "root" (r.2.2 + 1) "" "Root node" [] r.2.1 [] []), r.1⟩
  else ⟨tree.root, r.1⟩

/-- The base `MemoryStore` document map, plus the tree: the whole
`RAPTORStore` state. -/
structure RAPTORState where
  base : List (String × Document)
  tree : RAPTORTree

/-- Go map assignment for documents. -/
def setDoc (m : List (String × Document)) (k : String) (v : Document) :
    List (String × Document) :=
  if m.any (fun p => p.1 == k) then
    m.map (fun p => if p.1 == k then (k, v) else p)
  else m ++ [(k, v)]

/-- `MemoryStore.Add`: insert documents one by one, stopping with an error
at the first empty id (earlier inserts are kept, as in the source). -/
def baseAddGo : List (String × Document) → List Document →
    List (String × Document) × Option String
  | m, [] => (m, none)
  | m, d :: ds =>
    if d.id = "" then (m, some "document ID is required")
    else baseAddGo (setDoc m d.id d) ds

/-- The leaf node created for one added document: level 0, the document's
own content and embedding. -/
def leafNode (d : Document) : TreeNode :=
  .node d.id 0 d.content "" d.embedding [] [d.id] d.metadata

/-- `RAPTORStore.Add`: write-through to the base store, append leaves to
level 0, rebuild upper levels from the new leaves. Returns the new state
and the error, if any. -/
def addDocs (cfg : RAPTORConfig) (summarize : SummarizeFn) (embed : EmbedFn)
    (st : RAPTORState) (docs : List Document) :
    RAPTORState × Option String :=
  let b := baseAddGo st.base docs
  match b.2 with
  | some e => (⟨b.1, st.tree⟩, some ("base add failed: " ++ e))
  | none =>
    let leaves := docs.map leafNode
    let tree1 : RAPTORTree :=
      ⟨st.tree.root,
       setLevel st.tree.levels 0 (getLevel st.tree.levels 0 ++ leaves)⟩
    (⟨b.1, buildTreeF cfg summarize embed tree1 leaves⟩, none)

/-! ### Search (part_007 lines 258-342) -/

def docOf (n : TreeNode) : Document := ⟨n.id, n.content, n.embedding, n.metadata⟩

/-- `searchChildren`: for each child, leaves are collected (with their
score), and non-leaf children with children are descended into — with no
threshold check; the `limit` argument is carried but never used, as in the
source. -/
def searchChildren (query : List ℚ) : TreeNode → Nat → List SearchResult
  | .node _ _ _ _ _ children _ _, limit =>
    (children.attach.map (fun c =>
      if c.1.level = 0 then
        [⟨docOf c.1, CosineSimilarity query c.1.embedding⟩]
      else if c.1.children.isEmpty then []
      else searchChildren query c.1 limit)).flatten
termination_by n _ => n
decreasing_by
  have := List.sizeOf_lt_of_mem c.2
  simp only [TreeNode.node.sizeOf_spec]
  omega

/-- One level of the scan of `Search`: leaves enter the pool directly,
non-leaf nodes scoring strictly above the threshold are descended into. -/
def levelScan (cfg : RAPTORConfig) (query : List ℚ) (limit : Nat) (lv : Nat)
    (ns : List TreeNode) : List SearchResult :=
  (ns.map (fun node =>
    if lv = 0 then [⟨docOf node, CosineSimilarity query node.embedding⟩]
    else if cfg.similarityThreshold < CosineSimilarity query node.embedding
    then searchChildren query node limit
    else [])).flatten

/-- The candidate pool of `Search`: the per-level scans from `maxLevels`
down to 0, concatenated. -/
def searchCandidates (cfg : RAPTORConfig) (tree : RAPTORTree)
    (query : List ℚ) (limit : Nat) : List SearchResult :=
  ((List.range (cfg.maxLevels + 1)).reverse.map
    (fun lv => levelScan cfg query limit lv (getLevel tree.levels lv))).flatten

/-- Sort by score, descending (`sort.Slice` determinised to a stable sort;
the source leaves tie order unspecified). -/
def sortByScore (rs : List SearchResult) : List SearchResult :=
  rs.mergeSort (fun a b => decide (b.score ≤ a.score))

/-- The dedup-and-truncate pass of `Search`: first occurrence of each
document id wins; stop once `limit` results are kept. -/
def dedupLimit (limit : Nat) :
    List SearchResult → List String → Nat → List SearchResult
  | [], _, _ => []
  | r :: rest, seen, cnt =>
    if seen.contains r.document.id then dedupLimit limit rest seen cnt
    else if limit ≤ cnt + 1 then [r]
    else r :: dedupLimit limit rest (r.document.id :: seen) (cnt + 1)

/-- `RAPTORStore.Search`. -/
def searchRAPTOR (cfg : RAPTORConfig) (tree : RAPTORTree) (query : List ℚ)
    (limit : Nat) : List SearchResult :=
  dedupLimit limit (sortByScore (searchCandidates cfg tree query limit)) [] 0

/-! ### Delete (part_007 lines 408-435) -/

/-- `MemoryStore.Delete`: remove the listed keys. -/
def baseDelete (m : List (String × Document)) (ids : List String) :
    List (String × Document) :=
  m.filter (fun p => !ids.contains p.1)

/-- `RAPTORStore.Delete`: delete from the base store, then filter every
per-level node list by id; nothing else — in particular no surviving node's
`Children` list — is touched. -/
def deleteDocs (st : RAPTORState) (ids : List String) : RAPTORState :=
  ⟨baseDelete st.base ids,
   ⟨st.tree.root,
    st.tree.levels.map
      (fun p => (p.1, p.2.filter (fun n => !ids.contains n.id)))⟩⟩

/-! ### The leaves a descent reaches, and the shape of searchChildren -/

/-- The leaf descendants reachable from a node through non-leaf children
that have children (nodes at a nonzero level without children are dead
ends, exactly as in `searchChildren`). -/
def descLeaves : TreeNode → List TreeNode
  | .node i lv c s e children d m =>
    if lv = 0 then [.node i lv c s e children d m]
    else (children.attach.map (fun c' => descLeaves c'.1)).flatten
termination_by n => n
decreasing_by
  have := List.sizeOf_lt_of_mem c'.2
  simp only [TreeNode.node.sizeOf_spec]
  omega

theorem descLeaves_leaf {n : TreeNode} (h : n.level = 0) :
    descLeaves n = [n] := by
  obtain ⟨i, lv, c, s, e, children, d, m⟩ := n
  simp only [TreeNode.level] at h
  rw [descLeaves, if_pos h]

theorem descLeaves_inner {n : TreeNode} (h : n.level ≠ 0) :
    descLeaves n = (n.children.map descLeaves).flatten := by
  obtain ⟨i, lv, c, s, e, children, d, m⟩ := n
  simp only [TreeNode.level] at h
  rw [descLeaves, if_neg h]
  rw [List.attach_map_val children descLeaves]
  rfl

theorem attach_flatten_congr {α β : Type} (l : List α)
    (f : {x // x ∈ l} → List β) (g : α → List β)
    (h : ∀ (x : α) (hx : x ∈ l), f ⟨x, hx⟩ = g x) :
    (l.attach.map f).flatten = (l.map g).flatten := by
  have heq : l.attach.map f = l.attach.map (fun x => g x.1) := by
    apply List.map_congr_left
    intro x _
    obtain ⟨v, hv⟩ := x
    exact h v hv
  rw [heq, List.attach_map_val l g]

/-- `searchChildren` collects exactly the leaf descendants of the node
reachable through non-leaf children chains, each scored against the query —
with no similarity-threshold filtering anywhere in the descent. -/
theorem searchChildren_eq_descLeaves (query : List ℚ) :
    ∀ (k : Nat) (n : TreeNode), sizeOf n ≤ k → ∀ limit,
      searchChildren query n limit =
        ((n.children.map descLeaves).flatten).map
          (fun l => ⟨docOf l, CosineSimilarity query l.embedding⟩) := by
  intro k
  induction k with
  | zero =>
    intro n h
    obtain ⟨i, lv, c, s, e, children, d, m⟩ := n
    simp [TreeNode.node.sizeOf_spec] at h
  | succ k ih =>
    intro n hle limit
    obtain ⟨i, lv, c, s, e, children, d, m⟩ := n
    rw [searchChildren]
    simp only [TreeNode.children]
    have hmapflat :
        ((children.map descLeaves).flatten).map
            (fun l => (⟨docOf l, CosineSimilarity query l.embedding⟩ :
              SearchResult)) =
          (children.map (fun ch => (descLeaves ch).map
            (fun l => ⟨docOf l, CosineSimilarity query l.embedding⟩))).flatten := by
      rw [List.map_flatten, List.map_map]
      rfl
    rw [hmapflat]
    apply attach_flatten_congr
    intro ch hch
    have hchsize : sizeOf ch ≤ k := by
      have h1 := List.sizeOf_lt_of_mem hch
      have h2 : sizeOf (TreeNode.node i lv c s e children d m) ≤ k + 1 := hle
      simp only [TreeNode.node.sizeOf_spec] at h2
      omega
    obtain ⟨i', lv', c', s', e', children', d', m'⟩ := ch
    simp only [TreeNode.level, TreeNode.children]
    by_cases h0 : lv' = 0
    · rw [if_pos h0]
      rw [@descLeaves_leaf (TreeNode.node i' lv' c' s' e' children' d' m')
        (by simp [TreeNode.level, h0])]
      rfl
    · rw [if_neg h0]
      rw [@descLeaves_inner (TreeNode.node i' lv' c' s' e' children' d' m')
        (by simp [TreeNode.level, h0])]
      simp only [TreeNode.children]
      by_cases hemp : children'.isEmpty
      · rw [if_pos hemp]
        rw [List.isEmpty_iff.mp hemp]
        rfl
      · rw [if_neg hemp]
        rw [ih (TreeNode.node i' lv' c' s' e' children' d' m') hchsize limit]
        rfl

/-! ### Concrete similarity values used by counterexamples

All concrete embeddings have squared norm 4, on which the Newton iteration
is stationary at 2, so their similarity values are exact. -/

theorem newtonIter_four : ∀ n, newtonIter 4 n 2 = 2 := by
  intro n
  induction n with
  | zero => rfl
  | succ n ih =>
    rw [newtonIter]
    have h : (2 : ℚ) - (2 * 2 - 4) / (2 * 2) = 2 := by norm_num
    rw [h, ih]

theorem sqrtQ_four : sqrtQ 4 = 2 := by
  rw [sqrtQ, if_neg (by norm_num)]
  have h : (4 : ℚ) / 2 = 2 := by norm_num
  rw [h]
  exact newtonIter_four 10

theorem cosSim_20_self : CosineSimilarity [2, 0] [2, 0] = 1 := by
  have hd : dotQ [2, 0] [2, 0] = (4 : ℚ) := by norm_num [dotQ]
  rw [CosineSimilarity, if_neg (by norm_num), hd,
    if_neg (by norm_num), sqrtQ_four]
  norm_num

theorem cosSim_20_zero : CosineSimilarity [2, 0] [0, 0] = 0 := by
  have hb : dotQ ([0, 0] : List ℚ) [0, 0] = 0 := by norm_num [dotQ]
  rw [CosineSimilarity, if_neg (by norm_num), if_pos (Or.inr hb)]

/-! ### Claim C2 -/

/-- The leaf document used by the C2 and C10 scenarios. -/
def leafD : TreeNode := .node "docD" 0 "contentD" "" [2, 0] [] ["docD"] []

/-- A level-1 node whose embedding is the zero vector: its cosine score
against any query is 0, at or below any positive threshold. -/
def nodeC : TreeNode := .node "c" 1 "" "c summary" [0, 0] [leafD] ["docD"] []

/-- A level-2 node scoring 1 against the query. -/
def nodeR : TreeNode := .node "r" 2 "" "r summary" [2, 0] [nodeC] ["docD"] []

def cfg2 : RAPTORConfig := ⟨3, 5, 7 / 10, 10⟩

def q2 : List ℚ := [2, 0]

/-- C2 counterexample: the intermediate node `c` scores 0, at or below the
threshold 0.7, yet the descent started at its parent `r` passes straight
through `c` and collects the leaf `docD`: `searchChildren` performs no
threshold check, so a leaf IS added to the candidate pool through a descent
path passing through a node scoring at or below the threshold, refuting the
claimed pruning of such nodes' subtrees. -/
theorem c2_counterexample :
    CosineSimilarity q2 nodeC.embedding ≤ cfg2.similarityThreshold ∧
    nodeR.children = [nodeC] ∧
    0 < nodeC.level ∧
    searchChildren q2 nodeR 10 = [⟨docOf leafD, 1⟩] := by
  refine ⟨?_, rfl, by decide, ?_⟩
  · show CosineSimilarity [2, 0] [0, 0] ≤ (7 / 10 : ℚ)
    rw [cosSim_20_zero]
    norm_num
  · rw [searchChildren_eq_descLeaves q2 (sizeOf nodeR) nodeR (le_refl _) 10]
    have hC : descLeaves nodeC = [leafD] := by
      rw [descLeaves_inner (by decide)]
      show (List.map descLeaves [leafD]).flatten = [leafD]
      rw [List.map_cons, List.map_nil,
        @descLeaves_leaf leafD (by decide)]
      rfl
    show (List.map descLeaves [nodeC]).flatten.map _ = _
    rw [List.map_cons, List.map_nil, hC]
    show [(⟨docOf leafD, CosineSimilarity q2 leafD.embedding⟩ : SearchResult)] = _
    have : CosineSimilarity q2 leafD.embedding = 1 := cosSim_20_self
    rw [this]

/-- C2 amended: `Search` prunes only at the per-level scan — a non-leaf node
scoring at or below the threshold does not itself start a descent there —
but a descent started at an above-threshold node visits every non-leaf
descendant that has children with no further threshold check, collecting
every reachable leaf descendant regardless of score. -/
theorem c2_descent_unconditional (query : List ℚ) (n : TreeNode)
    (limit : Nat) :
    searchChildren query n limit =
      ((n.children.map descLeaves).flatten).map
        (fun l => ⟨docOf l, CosineSimilarity query l.embedding⟩) :=
  searchChildren_eq_descLeaves query (sizeOf n) n (le_refl _) limit

/-! ### Well-formed tree nodes (claim C3) -/

/-- `max(level(child))` over a children list. -/
def maxChildLevel (children : List TreeNode) : Nat :=
  (children.map TreeNode.level).foldr max 0

/-- A well-formed node: a node with children sits one level above the
maximum child level; a node above level 0 carries the embedding produced by
the embedder for its stored summary; level-0 nodes have no children; and
all children are themselves well-formed. -/
inductive WFNode (embed : EmbedFn) : TreeNode → Prop where
  | mk (i : String) (lv : Nat) (c s : String) (e : List ℚ)
      (children : List TreeNode) (d : List String)
      (m : List (String × MetaVal)) :
      (children ≠ [] → lv = 1 + maxChildLevel children) →
      (0 < lv → embed s = .ok e) →
      (lv = 0 → children = []) →
      (∀ ch ∈ children, WFNode embed ch) →
      WFNode embed (.node i lv c s e children d m)

/-- Every entry of the levels map holds well-formed nodes whose level field
matches the entry's key. -/
def LevelsWF (embed : EmbedFn) (levels : List (Nat × List TreeNode)) : Prop :=
  ∀ p ∈ levels, ∀ n ∈ p.2, WFNode embed n ∧ n.level = p.1

theorem maxChildLevel_const {children : List TreeNode} {lv : Nat}
    (h : ∀ n ∈ children, n.level = lv) (hne : children ≠ []) :
    maxChildLevel children = lv := by
  induction children with
  | nil => exact absurd rfl hne
  | cons n ns ih =>
    rw [maxChildLevel, List.map_cons, List.foldr_cons]
    rcases ns with _ | ⟨n', ns'⟩
    · simp [h n (List.mem_cons_self n _)]
    · have hrest : maxChildLevel (n' :: ns') = lv :=
        ih (fun x hx => h x (List.mem_cons_of_mem _ hx)) (by simp)
      rw [maxChildLevel] at hrest
      rw [hrest, h n (List.mem_cons_self n _)]
      simp

theorem collectCluster_subsets (cfg : RAPTORConfig) (seed : TreeNode) :
    ∀ (k : Nat) (rest : List TreeNode) (x : TreeNode),
      (x ∈ (collectCluster cfg seed k rest).1 → x ∈ rest) ∧
      (x ∈ (collectCluster cfg seed k rest).2 → x ∈ rest) := by
  intro k rest
  induction rest generalizing k with
  | nil => intro x; simp [collectCluster]
  | cons n rest ih =>
    intro x
    rw [collectCluster]
    by_cases h1 : cfg.clusterSize ≤ k
    · rw [if_pos h1]
      exact ⟨fun h => absurd h (by simp), fun h => h⟩
    · rw [if_neg h1]
      by_cases h2 : cfg.similarityThreshold ≤
          CosineSimilarity seed.embedding n.embedding
      · rw [if_pos h2]
        constructor
        · intro hx
          rcases List.mem_cons.mp hx with rfl | hx
          · exact List.mem_cons_self _ _
          · exact List.mem_cons_of_mem _ ((ih (k + 1) x).1 hx)
        · intro hx
          exact List.mem_cons_of_mem _ ((ih (k + 1) x).2 hx)
      · rw [if_neg h2]
        constructor
        · intro hx
          exact List.mem_cons_of_mem _ ((ih k x).1 hx)
        · intro hx
          rcases List.mem_cons.mp hx with rfl | hx
          · exact List.mem_cons_self _ _
          · exact List.mem_cons_of_mem _ ((ih k x).2 hx)

theorem clusterGo_mem (cfg : RAPTORConfig) :
    ∀ (k : Nat) (l : List TreeNode), l.length ≤ k →
      ∀ c ∈ clusterGo cfg l, ∀ n ∈ c, n ∈ l := by
  intro k
  induction k with
  | zero =>
    intro l hl c hc
    rw [List.length_eq_zero.mp (Nat.le_zero.mp hl)] at hc
    simp [clusterGo] at hc
  | succ k ih =>
    intro l hl c hc n hn
    rcases l with _ | ⟨seed, rest⟩
    · simp [clusterGo] at hc
    · rw [clusterGo] at hc
      rcases List.mem_cons.mp hc with rfl | hc
      · rcases List.mem_cons.mp hn with rfl | hn
        · exact List.mem_cons_self _ _
        · exact List.mem_cons_of_mem _
            ((collectCluster_subsets cfg seed 1 rest n).1 hn)
      · have hlen : (collectCluster cfg seed 1 rest).2.length ≤ k := by
          have := collectCluster_snd_length cfg seed 1 rest
          simp only [List.length_cons] at hl
          omega
        exact List.mem_cons_of_mem _
          ((collectCluster_subsets cfg seed 1 rest n).2
            (ih _ hlen c hc n hn))

theorem clusterNodes_mem {cfg : RAPTORConfig} {nodes : List TreeNode}
    {c : List TreeNode} {n : TreeNode}
    (hc : c ∈ clusterNodes cfg nodes) (hn : n ∈ c) : n ∈ nodes := by
  rw [clusterNodes] at hc
  by_cases h : nodes.length ≤ cfg.clusterSize
  · rw [if_pos h] at hc
    rw [List.mem_singleton.mp hc] at hn
    exact hn
  · rw [if_neg h] at hc
    exact clusterGo_mem cfg nodes.length nodes (le_refl _) c hc n hn

theorem enumFrom_mem_snd {α : Type} :
    ∀ (l : List α) (k : Nat) (p : Nat × α), p ∈ l.enumFrom k → p.2 ∈ l := by
  intro l
  induction l with
  | nil => intro k p hp; simp [List.enumFrom] at hp
  | cons a l ih =>
    intro k p hp
    rw [List.enumFrom] at hp
    rcases List.mem_cons.mp hp with rfl | hp
    · exact List.mem_cons_self _ _
    · exact List.mem_cons_of_mem _ (ih (k + 1) p hp)

theorem mkParent_wf {summarize : SummarizeFn} {embed : EmbedFn} {lv0 i : Nat}
    {cluster : List TreeNode} {p : TreeNode}
    (hc : ∀ n ∈ cluster, WFNode embed n ∧ n.level = lv0)
    (hp : mkParent summarize embed (lv0 + 1) i cluster = some p) :
    WFNode embed p ∧ p.level = lv0 + 1 := by
  rw [mkParent] at hp
  by_cases hemp : cluster.isEmpty
  · rw [if_pos hemp] at hp
    cases hp
  · rw [if_neg hemp] at hp
    simp only [] at hp
    cases hembed : embed
        (match summarize (clusterContents cluster) with
          | .ok s => s
          | .error _ => fallbackSummary (clusterContents cluster)) with
    | error e => rw [hembed] at hp; cases hp
    | ok emb =>
      rw [hembed] at hp
      have hpe := Option.some.inj hp
      subst hpe
      have hne : cluster ≠ [] := fun h => by
        rw [h] at hemp; exact hemp rfl
      refine ⟨WFNode.mk _ _ _ _ _ _ _ _ ?_ ?_ ?_ ?_, rfl⟩
      · intro _
        rw [maxChildLevel_const (fun n hn => (hc n hn).2) hne]
        omega
      · intro _
        exact hembed
      · intro h
        exact absurd h (by omega)
      · exact fun ch hch => (hc ch hch).1

theorem buildParents_wf {summarize : SummarizeFn} {embed : EmbedFn}
    {lv0 : Nat} {clusters : List (List TreeNode)} {p : TreeNode}
    (hcl : ∀ c ∈ clusters, ∀ n ∈ c, WFNode embed n ∧ n.level = lv0)
    (hp : p ∈ buildParents summarize embed (lv0 + 1) clusters) :
    WFNode embed p ∧ p.level = lv0 + 1 := by
  rw [buildParents] at hp
  obtain ⟨q, hq, hqe⟩ := List.mem_filterMap.mp hp
  have hq2 : q.2 ∈ clusters := enumFrom_mem_snd clusters 0 q hq
  exact mkParent_wf (hcl q.2 hq2) hqe

theorem mem_setLevel {levels : List (Nat × List TreeNode)} {lv : Nat}
    {ns : List TreeNode} {q : Nat × List TreeNode}
    (h : q ∈ setLevel levels lv ns) : q = (lv, ns) ∨ q ∈ levels := by
  rw [setLevel] at h
  by_cases hany : levels.any (fun p => p.1 == lv)
  · rw [if_pos hany] at h
    obtain ⟨p, hp, hfp⟩ := List.mem_map.mp h
    by_cases hple : p.1 = lv
    · left
      rw [← hfp]
      simp [hple]
    · right
      rw [← hfp]
      simp only [beq_iff_eq, if_neg hple]
      exact hp
  · rw [if_neg hany] at h
    rcases List.mem_append.mp h with h | h
    · right; exact h
    · left; simpa using h

theorem getLevel_setLevel_self (levels : List (Nat × List TreeNode))
    (lv : Nat) (ns : List TreeNode) :
    getLevel (setLevel levels lv ns) lv = ns := by
  rw [setLevel]
  by_cases hany : levels.any (fun p => p.1 == lv)
  · rw [if_pos hany]
    rw [getLevel]
    obtain ⟨p0, hp0, hp0k⟩ := List.any_eq_true.mp hany
    have hfind : (levels.map
        (fun p => if p.1 == lv then (lv, ns) else p)).find?
          (fun p => p.1 == lv) = some (lv, ns) := by
      clear hany
      induction levels with
      | nil => simp at hp0
      | cons p ps ih =>
        rw [List.map_cons]
        by_cases hpk : p.1 = lv
        · have h1 : (if p.1 == lv then ((lv, ns) : Nat × List TreeNode)
              else p) = (lv, ns) := by simp [hpk]
          rw [h1, List.find?_cons]
          have hb : (((lv, ns) : Nat × List TreeNode).1 == lv) = true := by
            simp
          rw [hb]
        · have h1 : (if p.1 == lv then ((lv, ns) : Nat × List TreeNode)
              else p) = p := by simp [hpk]
          rw [h1, List.find?_cons]
          have hb : (p.1 == lv) = false := by simpa using hpk
          rw [hb]
          rcases List.mem_cons.mp hp0 with rfl | hmem
          · exact absurd (by simpa using hp0k) hpk
          · exact ih hmem
    rw [hfind]
  · rw [if_neg hany, getLevel]
    have hnone : levels.find? (fun p => p.1 == lv) = none := by
      rw [List.find?_eq_none]
      intro p hp hpk
      exact hany (List.any_eq_true.mpr ⟨p, hp, hpk⟩)
    rw [List.find?_append, hnone]
    simp

theorem getLevel_setLevel_ne {levels : List (Nat × List TreeNode)}
    {lv lv' : Nat} {ns : List TreeNode} (h : lv' ≠ lv) :
    getLevel (setLevel levels lv ns) lv' = getLevel levels lv' := by
  rw [setLevel]
  by_cases hany : levels.any (fun p => p.1 == lv)
  · rw [if_pos hany, getLevel, getLevel]
    have hfind : (levels.map
        (fun p => if p.1 == lv then (lv, ns) else p)).find?
          (fun p => p.1 == lv') = levels.find? (fun p => p.1 == lv') := by
      clear hany
      induction levels with
      | nil => rfl
      | cons p ps ih =>
        rw [List.map_cons]
        by_cases hpk : p.1 = lv
        · have h1 : (if p.1 == lv then ((lv, ns) : Nat × List TreeNode)
              else p) = (lv, ns) := by simp [hpk]
          rw [h1]
          have h2 : (((lv, ns) : Nat × List TreeNode).1 == lv') = false := by
            simp
            exact fun hcon => h hcon.symm
          have h3 : (p.1 == lv') = false := by
            simp [hpk]
            exact fun hcon => h hcon.symm
          rw [List.find?_cons, List.find?_cons, h2, h3]
          exact ih
        · have h1 : (if p.1 == lv then ((lv, ns) : Nat × List TreeNode)
              else p) = p := by simp [hpk]
          rw [h1]
          rw [List.find?_cons, List.find?_cons]
          cases hpk' : (p.1 == lv')
          · exact ih
          · rfl
    rw [hfind]
  · rw [if_neg hany, getLevel, getLevel, List.find?_append]
    have hlast : (([(lv, ns)] : List (Nat × List TreeNode)).find?
        (fun p => p.1 == lv')) = none := by
      simp
      exact fun hcon => h hcon.symm
    rw [hlast]
    cases levels.find? (fun p => p.1 == lv') <;> rfl

/-- The loop of `buildTree` preserves well-formedness of the levels map:
every parent it writes sits one level above its (uniform-level, well-formed)
children and carries the embedding of its summary. -/
theorem buildLoop_wf (cfg : RAPTORConfig) (summarize : SummarizeFn)
    (embed : EmbedFn) :
    ∀ (k level : Nat), cfg.maxLevels - level ≤ k →
      ∀ (current : List TreeNode) (levels : List (Nat × List TreeNode)),
        (∀ n ∈ current, WFNode embed n ∧ n.level = level) →
        LevelsWF embed levels →
        LevelsWF embed
          (buildLoop cfg summarize embed level current levels).1 := by
  intro k
  induction k with
  | zero =>
    intro level hk current levels _ hlev
    rw [buildLoop, dif_neg (fun hcon => by omega)]
    exact hlev
  | succ k ih =>
    intro level hk current levels hcur hlev
    rw [buildLoop]
    by_cases hcond : level < cfg.maxLevels ∧ 1 < current.length
    · rw [dif_pos hcond]
      by_cases hcl : (clusterNodes cfg current).length = current.length
      · rw [if_pos hcl]
        exact hlev
      · rw [if_neg hcl]
        have hpar : ∀ p ∈ buildParents summarize embed (level + 1)
            (clusterNodes cfg current),
            WFNode embed p ∧ p.level = level + 1 := by
          intro p hp
          refine buildParents_wf ?_ hp
          intro c hc n hn
          exact hcur n (clusterNodes_mem hc hn)
        refine ih (level + 1) (by omega) _ _ hpar ?_
        intro p hp n hn
        rcases mem_setLevel hp with rfl | hp
        · exact hpar n hn
        · exact hlev p hp n hn
    · rw [dif_neg hcond]
      exact hlev

/-- The loop never writes the level-0 entry (it only writes `level + 1`). -/
theorem buildLoop_getLevel_zero (cfg : RAPTORConfig)
    (summarize : SummarizeFn) (embed : EmbedFn) :
    ∀ (k level : Nat), cfg.maxLevels - level ≤ k →
      ∀ (current : List TreeNode) (levels : List (Nat × List TreeNode)),
        getLevel (buildLoop cfg summarize embed level current levels).1 0 =
          getLevel levels 0 := by
  intro k
  induction k with
  | zero =>
    intro level hk current levels
    rw [buildLoop, dif_neg (fun hcon => by omega)]
  | succ k ih =>
    intro level hk current levels
    rw [buildLoop]
    by_cases hcond : level < cfg.maxLevels ∧ 1 < current.length
    · rw [dif_pos hcond]
      by_cases hcl : (clusterNodes cfg current).length = current.length
      · rw [if_pos hcl]
      · rw [if_neg hcl, ih (level + 1) (by omega)]
        exact getLevel_setLevel_ne (Nat.zero_ne_add_one level)
    · rw [dif_neg hcond]

/-- `buildTree` only rewrites the levels map through its loop; the root
assignment leaves it unchanged. -/
theorem buildTreeF_levels (cfg : RAPTORConfig) (summarize : SummarizeFn)
    (embed : EmbedFn) (tree : RAPTORTree) (nodes : List TreeNode) :
    (buildTreeF cfg summarize embed tree nodes).levels =
      (buildLoop cfg summarize embed 0 nodes tree.levels).1 := by
  rw [buildTreeF]
  by_cases h1 : (buildLoop cfg summarize embed 0 nodes tree.levels).2.1.length = 1
  · rw [if_pos h1]
  · rw [if_neg h1]
    by_cases h2 : 1 < (buildLoop cfg summarize embed 0 nodes tree.levels).2.1.length
    · rw [if_pos h2]
    · rw [if_neg h2]

theorem leafNode_wf (embed : EmbedFn) (d : Document) :
    WFNode embed (leafNode d) ∧ (leafNode d).level = 0 := by
  refine ⟨WFNode.mk _ _ _ _ _ _ _ _ ?_ ?_ ?_ ?_, rfl⟩
  · intro h; exact absurd rfl h
  · intro h; exact absurd h (by omega)
  · intro _; rfl
  · intro ch hch; simp at hch

theorem getLevel_mem {levels : List (Nat × List TreeNode)} {lv : Nat}
    {n : TreeNode} (h : n ∈ getLevel levels lv) :
    ∃ p, p ∈ levels ∧ p.1 = lv ∧ n ∈ p.2 := by
  rw [getLevel] at h
  cases hfind : levels.find? (fun p => p.1 == lv) with
  | none => rw [hfind] at h; simp at h
  | some p =>
    rw [hfind] at h
    refine ⟨p, List.mem_of_find?_eq_some hfind, ?_, h⟩
    have := List.find?_some hfind
    simpa using this

/-! ### Claim C3 -/

/-- C3 amended: after every `Add`, every node stored in the levels map is
well-formed: a node with children sits at `1 + max(level(child))`, a
cluster-created (positive-level) node's embedding is the embedding of its
generated summary, level-0 nodes are exactly leaves; on success the level-0
list is extended by one leaf per added document, each carrying the
document's own content and embedding. The synthetic aggregator root is
excluded: per the counterexample its level can exceed
`1 + max(level(child))`. -/
theorem c3_add_invariant (cfg : RAPTORConfig) (summarize : SummarizeFn)
    (embed : EmbedFn) (st : RAPTORState) (docs : List Document)
    (hinv : LevelsWF embed st.tree.levels) :
    LevelsWF embed (addDocs cfg summarize embed st docs).1.tree.levels ∧
    ((addDocs cfg summarize embed st docs).2 = none →
      getLevel (addDocs cfg summarize embed st docs).1.tree.levels 0 =
        getLevel st.tree.levels 0 ++ docs.map leafNode) ∧
    (∀ d ∈ docs, (leafNode d).embedding = d.embedding ∧
      (leafNode d).level = 0 ∧ (leafNode d).children = []) := by
  cases hb : (baseAddGo st.base docs).2 with
  | some e =>
    have hres : addDocs cfg summarize embed st docs =
        (⟨(baseAddGo st.base docs).1, st.tree⟩,
          some ("base add failed: " ++ e)) := by
      simp only [addDocs]
      rw [hb]
    rw [hres]
    refine ⟨hinv, ?_, ?_⟩
    · intro hcon
      simp at hcon
    · intro d _
      exact ⟨rfl, rfl, rfl⟩
  | none =>
    have hres : addDocs cfg summarize embed st docs =
        (⟨(baseAddGo st.base docs).1,
          buildTreeF cfg summarize embed
            ⟨st.tree.root,
             setLevel st.tree.levels 0
               (getLevel st.tree.levels 0 ++ docs.map leafNode)⟩
            (docs.map leafNode)⟩, none) := by
      simp only [addDocs]
      rw [hb]
    rw [hres]
    have hleaves : ∀ n ∈ docs.map leafNode,
        WFNode embed n ∧ n.level = 0 := by
      intro n hn
      obtain ⟨d, _, rfl⟩ := List.mem_map.mp hn
      exact leafNode_wf embed d
    have htree1 : LevelsWF embed
        (setLevel st.tree.levels 0
          (getLevel st.tree.levels 0 ++ docs.map leafNode)) := by
      intro p hp n hn
      rcases mem_setLevel hp with rfl | hp
      · rcases List.mem_append.mp hn with hn | hn
        · obtain ⟨q, hq, hqk, hnq⟩ := getLevel_mem hn
          have := hinv q hq n hnq
          rw [hqk] at this
          exact this
        · exact hleaves n hn
      · exact hinv p hp n hn
    refine ⟨?_, ?_, ?_⟩
    · show LevelsWF embed (buildTreeF cfg summarize embed _ _).levels
      rw [buildTreeF_levels]
      exact buildLoop_wf cfg summarize embed cfg.maxLevels 0 (by omega)
        (docs.map leafNode) _ hleaves htree1
    · intro _
      show getLevel (buildTreeF cfg summarize embed _ _).levels 0 = _
      rw [buildTreeF_levels,
        buildLoop_getLevel_zero cfg summarize embed cfg.maxLevels 0 (by omega),
        getLevel_setLevel_self]
    · intro d _
      exact ⟨rfl, rfl, rfl⟩

/-- A summarizer oracle that always answers `S`. -/
def sumOK : SummarizeFn := fun _ => .ok "S"

/-- An embedder oracle that always answers `[2, 0]`. -/
def embOK : EmbedFn := fun _ => .ok [2, 0]

def cfg3 : RAPTORConfig := ⟨3, 1, 7 / 10, 10⟩

def dE1 : Document := ⟨"d1", "one", [2, 0], []⟩

def dE2 : Document := ⟨"d2", "two", [0, 2], []⟩

def lE1 : TreeNode := leafNode dE1

def lE2 : TreeNode := leafNode dE2

theorem collectCluster_cfg3 (seed : TreeNode) (rest : List TreeNode) :
    collectCluster cfg3 seed 1 rest = ([], rest) := by
  cases rest with
  | nil => rfl
  | cons n rest' => rw [collectCluster, if_pos (by decide)]

theorem clusterGo_cfg3 : ∀ (l : List TreeNode),
    clusterGo cfg3 l = l.map (fun n => [n]) := by
  intro l
  induction l with
  | nil => simp [clusterGo]
  | cons seed rest ih =>
    rw [clusterGo, collectCluster_cfg3]
    rw [List.map_cons, ← ih]

theorem clusterNodes_cfg3 :
    clusterNodes cfg3 [lE1, lE2] = [[lE1], [lE2]] := by
  rw [clusterNodes, if_neg (by decide), clusterGo_cfg3]
  rfl

theorem buildLoop_cfg3 :
    buildLoop cfg3 sumOK embOK 0 [lE1, lE2] [(0, [lE1, lE2])] =
      ([(0, [lE1, lE2])], [lE1, lE2], 1) := by
  rw [buildLoop, dif_pos (⟨by decide, by decide⟩ :
    0 < cfg3.maxLevels ∧ 1 < ([lE1, lE2]).length)]
  rw [clusterNodes_cfg3]
  rw [if_pos (by decide)]

theorem buildTreeF_cfg3 :
    buildTreeF cfg3 sumOK embOK ⟨none, [(0, [lE1, lE2])]⟩ [lE1, lE2] =
      ⟨some (.node "root" 2 "" "Root node" [] [lE1, lE2] [] []),
       [(0, [lE1, lE2])]⟩ := by
  rw [buildTreeF, buildLoop_cfg3]
  rw [if_neg (by decide), if_pos (by decide)]

/-- C3 counterexample: with cluster size 1, clustering two leaves makes no
progress, the loop breaks with its counter already incremented, and the
synthetic aggregator root is created at level 2 over children at level 0 —
violating `level(node) = 1 + max(level(child))` at the root, which the claim
explicitly includes. The add itself succeeds. -/
theorem c3_counterexample :
    (addDocs cfg3 sumOK embOK ⟨[], ⟨none, []⟩⟩ [dE1, dE2]).2 = none ∧
    ((addDocs cfg3 sumOK embOK ⟨[], ⟨none, []⟩⟩
        [dE1, dE2]).1.tree.root.map TreeNode.level) = some 2 ∧
    ((addDocs cfg3 sumOK embOK ⟨[], ⟨none, []⟩⟩
        [dE1, dE2]).1.tree.root.map
          (fun r => r.children.isEmpty)) = some false ∧
    ((addDocs cfg3 sumOK embOK ⟨[], ⟨none, []⟩⟩
        [dE1, dE2]).1.tree.root.map
          (fun r => 1 + maxChildLevel r.children)) = some 1 := by
  have hres : addDocs cfg3 sumOK embOK ⟨[], ⟨none, []⟩⟩ [dE1, dE2] =
      (⟨[("d1", dE1), ("d2", dE2)],
        buildTreeF cfg3 sumOK embOK ⟨none, [(0, [lE1, lE2])]⟩
          [lE1, lE2]⟩, none) := rfl
  rw [hres, buildTreeF_cfg3]
  refine ⟨rfl, rfl, rfl, rfl⟩

/-- Witness for the amended C3: starting from the empty store (trivially
well-formed levels), one concrete `Add` preserves the invariant. -/
theorem c3_witness :
    LevelsWF embOK (([] : List (Nat × List TreeNode))) ∧
    (LevelsWF embOK
        (addDocs cfg3 sumOK embOK ⟨[], ⟨none, []⟩⟩ [dE1, dE2]).1.tree.levels ∧
      ((addDocs cfg3 sumOK embOK ⟨[], ⟨none, []⟩⟩ [dE1, dE2]).2 = none →
        getLevel (addDocs cfg3 sumOK embOK ⟨[], ⟨none, []⟩⟩
            [dE1, dE2]).1.tree.levels 0 =
          getLevel (([] : List (Nat × List TreeNode))) 0 ++
            [dE1, dE2].map leafNode) ∧
      (∀ d ∈ [dE1, dE2], (leafNode d).embedding = d.embedding ∧
        (leafNode d).level = 0 ∧ (leafNode d).children = [])) :=
  ⟨fun p hp => absurd hp (List.not_mem_nil p),
   c3_add_invariant cfg3 sumOK embOK ⟨[], ⟨none, []⟩⟩ [dE1, dE2]
     (fun p hp => absurd hp (List.not_mem_nil p))⟩

/-! ### Claim C10 -/

theorem getLevel_map_values (f : List TreeNode → List TreeNode)
    (hf : f [] = []) :
    ∀ (levels : List (Nat × List TreeNode)) (lv : Nat),
      getLevel (levels.map (fun p => (p.1, f p.2))) lv =
        f (getLevel levels lv) := by
  intro levels
  induction levels with
  | nil => intro lv; rw [getLevel, getLevel]; simpa using hf.symm
  | cons p ps ih =>
    intro lv
    rw [List.map_cons, getLevel, getLevel, List.find?_cons, List.find?_cons]
    cases hpk : (p.1 == lv)
    · have hih := ih lv
      rw [getLevel, getLevel] at hih
      exact hih
    · rfl

/-- The state of the C10 scenario: one leaf `docD`, its parent `r` at
level 1 scoring 1 against the query (above the 0.7 threshold). -/
def rNodeT : TreeNode := .node "r" 1 "" "r summary" [2, 0] [leafD] ["docD"] []

def docD : Document := ⟨"docD", "contentD", [2, 0], []⟩

def st10 : RAPTORState :=
  ⟨[("docD", docD)], ⟨some rNodeT, [(0, [leafD]), (1, [rNodeT])]⟩⟩

/-- C10: `Delete` removes matching nodes only from the per-level lists and
the base store: every surviving node is one of the original nodes of its
level (its `Children` in particular unchanged) and no surviving node's id
was deleted; the root pointer is untouched. Concretely, after deleting
`docD` from `st10`, the leaf is gone from level 0 and from the base store,
yet it is still reachable through its surviving parent's `Children`,
and `Search` still returns the deleted document's content. -/
theorem c10_delete_frame :
    (∀ (st : RAPTORState) (ids : List String) (lv : Nat) (n : TreeNode),
      n ∈ getLevel (deleteDocs st ids).tree.levels lv →
      n ∈ getLevel st.tree.levels lv ∧ ¬ ids.contains n.id) ∧
    (∀ (st : RAPTORState) (ids : List String),
      (deleteDocs st ids).tree.root = st.tree.root) ∧
    getLevel (deleteDocs st10 ["docD"]).tree.levels 0 = [] ∧
    (deleteDocs st10 ["docD"]).base = [] ∧
    getLevel (deleteDocs st10 ["docD"]).tree.levels 1 = [rNodeT] ∧
    rNodeT.children = [leafD] ∧
    searchRAPTOR cfg2 (deleteDocs st10 ["docD"]).tree q2 5 =
      [⟨docOf leafD, 1⟩] ∧
    docOf leafD = docD := by
  refine ⟨?_, ?_, rfl, rfl, rfl, rfl, ?_, rfl⟩
  · intro st ids lv n hn
    have hdel : (deleteDocs st ids).tree.levels =
        st.tree.levels.map
          (fun p => (p.1, p.2.filter (fun n => !ids.contains n.id))) := rfl
    rw [hdel, getLevel_map_values (fun l => l.filter
      (fun n => !ids.contains n.id)) rfl] at hn
    have := List.mem_filter.mp hn
    refine ⟨this.1, ?_⟩
    have h2 := this.2
    simpa using h2
  · intro st ids
    rfl
  · -- the search still returns the deleted leaf through the parent
    have hsc : searchChildren q2 rNodeT 5 = [⟨docOf leafD, 1⟩] := by
      rw [searchChildren_eq_descLeaves q2 (sizeOf rNodeT) rNodeT (le_refl _) 5]
      show (List.map descLeaves [leafD]).flatten.map _ = _
      rw [List.map_cons, List.map_nil,
        @descLeaves_leaf leafD (by decide)]
      show [(⟨docOf leafD, CosineSimilarity q2 leafD.embedding⟩ :
        SearchResult)] = _
      rw [show CosineSimilarity q2 leafD.embedding = 1 from cosSim_20_self]
    have hscan1 : levelScan cfg2 q2 5 1 [rNodeT] = [⟨docOf leafD, 1⟩] := by
      rw [levelScan, List.map_cons, List.map_nil]
      show ((if (1 : Nat) = 0 then
          [⟨docOf rNodeT, CosineSimilarity q2 rNodeT.embedding⟩]
        else if cfg2.similarityThreshold <
            CosineSimilarity q2 rNodeT.embedding then
          searchChildren q2 rNodeT 5
        else []) :: []).flatten = _
      rw [if_neg (by decide),
        show CosineSimilarity q2 rNodeT.embedding = 1 from cosSim_20_self,
        if_pos (by norm_num [cfg2]), hsc]
      rfl
    have hpool : searchCandidates cfg2 (deleteDocs st10 ["docD"]).tree q2 5 =
        [⟨docOf leafD, 1⟩] := by
      have hl3 : getLevel (deleteDocs st10 ["docD"]).tree.levels 3 = [] := rfl
      have hl2 : getLevel (deleteDocs st10 ["docD"]).tree.levels 2 = [] := rfl
      have hl1 : getLevel (deleteDocs st10 ["docD"]).tree.levels 1 =
        [rNodeT] := rfl
      have hl0 : getLevel (deleteDocs st10 ["docD"]).tree.levels 0 = [] := rfl
      show (([3, 2, 1, 0] : List Nat).map
        (fun lv => levelScan cfg2 q2 5 lv
          (getLevel (deleteDocs st10 ["docD"]).tree.levels lv))).flatten = _
      rw [List.map_cons, List.map_cons, List.map_cons, List.map_cons,
        List.map_nil, hl3, hl2, hl1, hl0, hscan1]
      rfl
    rw [searchRAPTOR, hpool]
    rw [sortByScore, List.mergeSort_singleton]
    rfl

/-- Witness for C10's universally quantified frame conjuncts at the concrete
scenario: the surviving parent `r` is an original level-1 node whose id was
not deleted, and the root pointer is unchanged. -/
theorem c10_witness :
    (rNodeT ∈ getLevel st10.tree.levels 1 ∧
      ¬ (["docD"].contains rNodeT.id)) ∧
    (deleteDocs st10 ["docD"]).tree.root = st10.tree.root := by
  constructor
  · apply c10_delete_frame.1 st10 ["docD"] 1 rNodeT
    have hl : getLevel (deleteDocs st10 ["docD"]).tree.levels 1 =
      [rNodeT] := rfl
    rw [hl]
    exact List.mem_singleton_self rNodeT
  · exact c10_delete_frame.2.1 st10 ["docD"]

end GoAgent
